import Mathlib

set_option maxRecDepth 8000

/-!
Verification of the IPESPE-CONCATENAR spreadsheet consolidation pipeline.

The development shallowly embeds the core of the repository:
- database_processor.py : natural_sort_key, _build_intelligent_column_order,
  consolidate_data (the SQLite backing store is modelled as the list of rows
  it holds, in insertion order, which is what a plain SELECT returns);
- file_handler.py : parse_excel_files (table segmentation, header promotion,
  provenance columns, manifest);
- validator.py : validate_consolidation, get_validation_summary.

Modelling conventions:
- Python strings are Lean String values; character comparison is by code
  point on both sides.  Python str.strip is pyStrip below.
- A spreadsheet cell is an Option String: none models a missing value (NaN),
  some s models a cell whose Python str() rendering is s.
- DataFrame cells produced by the segmenter are PyVal values (string,
  nonnegative integer, or missing); the consolidated store holds
  Option String cells (none models SQL NULL).
- Python functions that can raise are modelled with Option / Except results;
  none / .error marks the raising run.
- Python str(n) for a nonnegative integer is natToStr below, and int(s) on a
  digit string is pyNatOfStr; both are executable and proved inverse.
- re.split with the digit-run pattern, applied by natural_sort_key, is
  modelled by groupKey, which groups maximal digit runs into numeric
  fragments and everything else into text fragments.
- Python tuple comparison of sort keys raises TypeError when a text fragment
  of one key meets a numeric fragment of the other; pyCompareKey models this
  with none.  The sort inside the planner uses the total comparison keyCmp,
  which orders numbers before text in the mixed case; the bridge theorem
  below proves that on every pair of names the planner actually sorts
  (names matching the question pattern) pyCompareKey is defined and agrees
  with keyCmp, so the totalisation never changes the modelled behaviour.
-/

/-! ## Characters, Python strip, digit runs -/

/-- The whitespace characters removed by Python str.strip (ASCII part). -/
def isPySpace (c : Char) : Bool :=
  c = ' ' || c = '\t' || c = '\n' || c = '\r' || c = '\x0b' || c = '\x0c'

/-- Python str.strip on a character list. -/
def pyStrip (l : List Char) : List Char :=
  ((l.dropWhile isPySpace).reverse.dropWhile isPySpace).reverse

/-- Python str.strip on a string. -/
def pyStripStr (s : String) : String := ⟨pyStrip s.data⟩

/-- Numeric value of an ASCII digit character. -/
def digitVal (c : Char) : Nat := c.toNat - 48

/-! ## natural_sort_key (database_processor.py lines 28-55) -/

/-- One fragment of a natural sort key: a maximal run of non-digits kept as
text, or a maximal run of digits parsed as a number. -/
inductive Seg where
  | txt (cs : List Char)
  | num (n : Nat)
deriving DecidableEq

def Seg.isNum : Seg → Bool
  | .txt _ => false
  | .num _ => true

/-- Step of the run-grouping scan; the accumulator holds the fragments built
so far in reverse order. -/
def pushChar (acc : List Seg) (c : Char) : List Seg :=
  if c.isDigit then
    match acc with
    | .num n :: rest => .num (10 * n + digitVal c) :: rest
    | _ => .num (digitVal c) :: acc
  else
    match acc with
    | .txt cs :: rest => .txt (cs ++ [c]) :: rest
    | _ => .txt [c] :: acc

/-- Splitting a name into alternating text and number fragments: the model of
re.split with the captured digit-run pattern followed by int conversion of
the digit parts and removal of empty text parts. -/
def groupKey (l : List Char) : List Seg := (l.foldl pushChar []).reverse

/-- natural_sort_key: strip the name, then split into text/number fragments. -/
def natural_sort_key (s : String) : List Seg := groupKey (pyStrip s.data)

/-! ## Comparisons -/

/-- Three-way comparison of characters by code point. -/
def charCmp (a b : Char) : Ordering :=
  if a < b then .lt else if b < a then .gt else .eq

/-- Lexicographic extension of a three-way comparison to lists; shorter
lists that are a leading part of longer ones sort first, exactly the Python
sequence comparison rule. -/
def listCmp {α : Type} (cmp : α → α → Ordering) : List α → List α → Ordering
  | [], [] => .eq
  | [], _ :: _ => .lt
  | _ :: _, [] => .gt
  | a :: as, b :: bs =>
    match cmp a b with
    | .eq => listCmp cmp as bs
    | o => o

/-- Lexicographic three-way comparison of character lists (Python str order). -/
def lexCmp : List Char → List Char → Ordering := listCmp charCmp

/-- Three-way comparison of naturals. -/
def natCmp (m n : Nat) : Ordering :=
  if m < n then .lt else if n < m then .gt else .eq

/-- Total three-way comparison of key fragments; in the mixed case numbers
sort before text (a totalisation never exercised by the program, see the
bridge theorem). -/
def segCmp : Seg → Seg → Ordering
  | .txt a, .txt b => lexCmp a b
  | .num m, .num n => natCmp m n
  | .num _, .txt _ => .lt
  | .txt _, .num _ => .gt

/-- Total lexicographic comparison of whole keys. -/
def keyCmp : List Seg → List Seg → Ordering := listCmp segCmp

/-- Python tuple comparison of two keys: elementwise, text against text
lexicographically and number against number numerically; a text fragment
meeting a number fragment at the first differing position raises TypeError,
modelled by none. -/
def pyCompareKey : List Seg → List Seg → Option Ordering
  | [], [] => some .eq
  | [], _ :: _ => some .lt
  | _ :: _, [] => some .gt
  | .txt a :: as, .txt b :: bs =>
    match lexCmp a b with
    | .eq => pyCompareKey as bs
    | o => some o
  | .num m :: as, .num n :: bs =>
    match natCmp m n with
    | .eq => pyCompareKey as bs
    | o => some o
  | .txt _ :: _, .num _ :: _ => none
  | .num _ :: _, .txt _ :: _ => none

/-- The ordering used to sort question columns: nonstrict comparison of
natural sort keys. -/
def natLeB (s t : String) : Bool :=
  !(keyCmp (natural_sort_key s) (natural_sort_key t) == .gt)

/-- Plain Python string ordering (used by list.sort and sorted on names). -/
def strLeB (s t : String) : Bool :=
  !(lexCmp s.data t.data == .gt)

/-! ## Stable sort (model of Python sorted / list.sort) -/

/-- Insert an element in front of the first list element it is
less-or-equal to; keeps earlier-seen elements in front of ties, which is
exactly the stability guarantee of Python sorts. -/
def orderedInsertB (le : String → String → Bool) (a : String) :
    List String → List String
  | [] => [a]
  | b :: l => if le a b then a :: b :: l else b :: orderedInsertB le a l

/-- Stable insertion sort; agrees with any stable sort, in particular with
Python sorted, whenever le is a total preorder on the elements sorted. -/
def insertionSortB (le : String → String → Bool) : List String → List String
  | [] => []
  | a :: l => orderedInsertB le a (insertionSortB le l)

/-! ## The question-column pattern and dedup -/

/-- Model of re.match with pattern P followed by at least one digit, anchored
at the start, case sensitive (database_processor.py line 108). -/
def pMatch (s : String) : Bool :=
  match s.data with
  | c0 :: c1 :: _ => c0 == 'P' && c1.isDigit
  | _ => false

/-- First-occurrence deduplication with an explicit seen set, the model of
the final comprehension of _build_intelligent_column_order. -/
def pyDedupAux : List String → List String → List String
  | _, [] => []
  | seen, c :: l =>
    if seen.contains c then pyDedupAux seen l
    else c :: pyDedupAux (c :: seen) l

def pyDedup (l : List String) : List String := pyDedupAux [] l

/-! ## Schema constants (database_processor.py lines 10-25, 99) -/

/-- The three provenance column names, always emitted first. -/
def traceability_cols : List String :=
  ["Nome do Arquivo de Origem", "Nome da Planilha de Origem",
   "Índice da Tabela na Planilha"]

/-- The canonical reference schema TEMPLATE_SCHEMA. -/
def TEMPLATE_SCHEMA : List String :=
  ["ID Coleta", "ID Questionário", "Autor", "Data início", "Data fim", "Duração",
   "Latitude", "Longitude", "Revisão", "Sincronizacao", "Finalizada", "PIN",
   "Enviada para Webhook", "Número do WhatsApp", "ramal", "P1", "P2", "P3", "P4",
   "P5", "P6", "P7", "P7_1", "P7_2", "P7_3", "P7_4", "P7_5", "P7_6", "P7_7", "P7_8",
   "P8", "P9", "P9_2", "P9_3", "P9_4", "P9_1", "P9_5", "P9_6", "P9_7", "P9_8", "P9_9",
   "P9_10", "P10", "P10_2", "P10_3", "P10_4", "P10_1", "P10_5", "P10_6", "P10_7", "P10_8",
   "P10_9", "P10_10", "P11", "P12", "P13", "P14", "P15", "P16", "P17", "P18", "P19",
   "P20", "P21", "P22", "P23", "P24", "P25", "P26", "P27", "P28", "P29", "P30",
   "P31", "P32", "P33", "P34_1", "P34_2", "P34_3", "P34_4", "P34_5", "P34_6",
   "P34_7", "P35_2", "P35_3", "P35_4", "P35_1", "P35_5", "P35_6", "P36", "P37_2",
   "P37_3", "P37_1", "P37_4", "P37_5", "P37_6", "P38_1", "P38_2", "P38_3", "P38_4",
   "P38_5", "P38_6", "P38_7", "P39", "P40", "P41_1", "P41_2", "P41_3", "P41_4",
   "P41_5", "P41_6", "P41_7", "P41_8", "P41_9", "P41_10", "P41_11", "P42", "IDADE",
   "P44", "P45", "P46", "P47", "P48", "ID", "EMP", "FONE", "P52", "audios_urls"]

/-! ## _build_intelligent_column_order (database_processor.py lines 80-143) -/

/-- The condition of the first branch of the template walk: keep a template
entry when it is not a question column, occurs in the data, and is not a
provenance column. -/
def planCond (allCols : List String) (c : String) : Bool :=
  !(pMatch c) && allCols.contains c && !(traceability_cols.contains c)

/-- The walk over TEMPLATE_SCHEMA (steps 3 of the algorithm): non-question
entries present in the data and not provenance columns are kept in template
order; at the first question entry, when the sorted question list is
nonempty and not yet inserted, the whole sorted question block is spliced
in.  Returns the built list together with the final p_inserted flag. -/
def baseSchemaAux (allCols pSorted : List String) :
    List String → Bool → List String × Bool
  | [], pIns => ([], pIns)
  | col :: rest, pIns =>
    if planCond allCols col then
      let r := baseSchemaAux allCols pSorted rest pIns
      (col :: r.1, r.2)
    else if pMatch col && !pIns && !pSorted.isEmpty then
      let r := baseSchemaAux allCols pSorted rest true
      (pSorted ++ r.1, r.2)
    else
      baseSchemaAux allCols pSorted rest pIns

/-- The column order planner.  The argument list is the iteration order of
the Python set of discovered column names; every membership test and both
sorts depend only on which names occur, except for the stable tie-breaking
of equal sort keys, which follows the iteration order. -/
def _build_intelligent_column_order (all_columns : List String) : List String :=
  let final0 := traceability_cols.filter (fun c => all_columns.contains c)
  let pSorted := insertionSortB natLeB (all_columns.filter (fun c => pMatch c))
  let res := baseSchemaAux all_columns pSorted TEMPLATE_SCHEMA false
  let base_schema := if !res.2 && !pSorted.isEmpty then res.1 ++ pSorted else res.1
  let all_known := traceability_cols ++ TEMPLATE_SCHEMA
  let unexpected :=
    insertionSortB strLeB (all_columns.filter (fun c => !(all_known.contains c)))
  pyDedup (final0 ++ base_schema ++ unexpected)

example : _build_intelligent_column_order ["P10", "P2", "P1"] = ["P1", "P2", "P10"] := by
  decide

example : natural_sort_key "P10_2" = [.txt ['P'], .num 10, .txt ['_'], .num 2] := by
  decide

/-! ## Lawfulness of the comparison functions -/

/-- The laws a three-way comparison needs for sorting: eq means equality,
gt mirrors lt, and lt is transitive. -/
structure LawfulCmp {α : Type} (cmp : α → α → Ordering) : Prop where
  eq_iff : ∀ a b, cmp a b = .eq ↔ a = b
  gt_iff : ∀ a b, cmp a b = .gt ↔ cmp b a = .lt
  lt_trans : ∀ a b c, cmp a b = .lt → cmp b c = .lt → cmp a c = .lt

theorem LawfulCmp.le_total {α : Type} {cmp : α → α → Ordering} (h : LawfulCmp cmp)
    (a b : α) : cmp a b ≠ .gt ∨ cmp b a ≠ .gt := by
  cases hab : cmp a b with
  | lt => exact Or.inl (by simp [hab])
  | eq => exact Or.inl (by simp [hab])
  | gt =>
    rw [h.gt_iff a b] at hab
    exact Or.inr (by simp [hab])

theorem LawfulCmp.le_trans {α : Type} {cmp : α → α → Ordering} (h : LawfulCmp cmp)
    {a b c : α} (hab : cmp a b ≠ .gt) (hbc : cmp b c ≠ .gt) : cmp a c ≠ .gt := by
  cases hab' : cmp a b with
  | gt => exact absurd hab' hab
  | eq =>
    rw [h.eq_iff] at hab'
    subst hab'
    exact hbc
  | lt =>
    cases hbc' : cmp b c with
    | gt => exact absurd hbc' hbc
    | eq =>
      rw [h.eq_iff] at hbc'
      subst hbc'
      simp [hab']
    | lt => simp [h.lt_trans a b c hab' hbc']

theorem LawfulCmp.antisymm {α : Type} {cmp : α → α → Ordering} (h : LawfulCmp cmp)
    {a b : α} (hab : cmp a b ≠ .gt) (hba : cmp b a ≠ .gt) : a = b := by
  cases hab' : cmp a b with
  | gt => exact absurd hab' hab
  | eq => exact (h.eq_iff a b).1 hab'
  | lt => exact absurd ((h.gt_iff b a).2 hab') hba

theorem charCmp_lt_iff (a b : Char) : charCmp a b = .lt ↔ a < b := by
  unfold charCmp
  split_ifs with h1 h2 <;> simp [h1]

theorem charCmp_lawful : LawfulCmp charCmp := by
  refine ⟨?_, ?_, ?_⟩
  · intro a b
    unfold charCmp
    split_ifs with h1 h2
    · simp only [reduceCtorEq, false_iff]
      exact fun h => absurd (h ▸ h1) (lt_irrefl _)
    · simp only [reduceCtorEq, false_iff]
      exact fun h => absurd (h ▸ h2) (lt_irrefl _)
    · simp only [true_iff]
      exact le_antisymm (not_lt.mp h2) (not_lt.mp h1)
  · intro a b
    unfold charCmp
    rcases lt_trichotomy a b with h | h | h
    · simp [h, asymm h]
    · subst h
      simp [lt_irrefl]
    · simp [h, asymm h]
  · intro a b c hab hbc
    exact (charCmp_lt_iff a c).2
      (lt_trans ((charCmp_lt_iff a b).1 hab) ((charCmp_lt_iff b c).1 hbc))

theorem natCmp_lt_iff (a b : Nat) : natCmp a b = .lt ↔ a < b := by
  unfold natCmp
  split_ifs with h1 h2 <;> simp [h1]

theorem natCmp_lawful : LawfulCmp natCmp := by
  refine ⟨?_, ?_, ?_⟩
  · intro a b
    unfold natCmp
    split_ifs with h1 h2 <;> simp <;> omega
  · intro a b
    unfold natCmp
    rcases Nat.lt_trichotomy a b with h | h | h
    · simp [h, Nat.lt_asymm h]
    · subst h
      simp [Nat.lt_irrefl]
    · simp [h, Nat.lt_asymm h]
  · intro a b c hab hbc
    exact (natCmp_lt_iff a c).2
      (Nat.lt_trans ((natCmp_lt_iff a b).1 hab) ((natCmp_lt_iff b c).1 hbc))

theorem listCmp_eq_iff {α : Type} {cmp : α → α → Ordering} (h : LawfulCmp cmp) :
    ∀ l₁ l₂ : List α, listCmp cmp l₁ l₂ = .eq ↔ l₁ = l₂
  | [], [] => by simp [listCmp]
  | [], _ :: _ => by simp [listCmp]
  | _ :: _, [] => by simp [listCmp]
  | a :: as, b :: bs => by
    simp only [listCmp]
    cases hab : cmp a b with
    | eq =>
      rw [h.eq_iff] at hab
      subst hab
      rw [listCmp_eq_iff h as bs]
      constructor
      · intro hh
        rw [hh]
      · intro hh
        injection hh
    | lt =>
      simp only [reduceCtorEq, false_iff]
      intro hh
      injection hh with h1 _
      rw [(h.eq_iff a b).2 h1] at hab
      cases hab
    | gt =>
      simp only [reduceCtorEq, false_iff]
      intro hh
      injection hh with h1 _
      rw [(h.eq_iff a b).2 h1] at hab
      cases hab

theorem listCmp_gt_iff {α : Type} {cmp : α → α → Ordering} (h : LawfulCmp cmp) :
    ∀ l₁ l₂ : List α, listCmp cmp l₁ l₂ = .gt ↔ listCmp cmp l₂ l₁ = .lt
  | [], [] => by simp [listCmp]
  | [], _ :: _ => by simp [listCmp]
  | _ :: _, [] => by simp [listCmp]
  | a :: as, b :: bs => by
    simp only [listCmp]
    cases hab : cmp a b with
    | eq =>
      have hba : cmp b a = .eq := (h.eq_iff b a).2 ((h.eq_iff a b).1 hab).symm
      rw [hba]
      exact listCmp_gt_iff h as bs
    | lt =>
      have hba : cmp b a = .gt := (h.gt_iff b a).2 hab
      rw [hba]
      simp
    | gt =>
      have hba : cmp b a = .lt := (h.gt_iff a b).1 hab
      rw [hba]
      simp

theorem listCmp_lt_trans {α : Type} {cmp : α → α → Ordering} (h : LawfulCmp cmp) :
    ∀ l₁ l₂ l₃ : List α, listCmp cmp l₁ l₂ = .lt → listCmp cmp l₂ l₃ = .lt →
      listCmp cmp l₁ l₃ = .lt
  | [], [], _ => by simp [listCmp]
  | [], _ :: _, [] => by simp [listCmp]
  | [], _ :: _, _ :: _ => by simp [listCmp]
  | _ :: _, [], _ => by simp [listCmp]
  | _ :: _, _ :: _, [] => by simp [listCmp]
  | a :: as, b :: bs, c :: cs => by
    simp only [listCmp]
    intro h12 h23
    cases hab : cmp a b with
    | gt => rw [hab] at h12; cases h12
    | eq =>
      have hab' := (h.eq_iff a b).1 hab
      subst hab'
      rw [hab] at h12
      cases hac : cmp a c with
      | eq =>
        have hac' := (h.eq_iff a c).1 hac
        subst hac'
        rw [hac] at h23
        exact listCmp_lt_trans h as bs cs h12 h23
      | lt => rfl
      | gt =>
        rw [hac] at h23
        cases h23
    | lt =>
      cases hbc : cmp b c with
      | eq =>
        have hbc' := (h.eq_iff b c).1 hbc
        subst hbc'
        rw [hab]
      | lt => rw [h.lt_trans a b c hab hbc]
      | gt => rw [hbc] at h23; cases h23

theorem listCmp_lawful {α : Type} {cmp : α → α → Ordering} (h : LawfulCmp cmp) :
    LawfulCmp (listCmp cmp) :=
  ⟨listCmp_eq_iff h, listCmp_gt_iff h, listCmp_lt_trans h⟩

theorem lexCmp_lawful : LawfulCmp lexCmp := listCmp_lawful charCmp_lawful

theorem segCmp_lawful : LawfulCmp segCmp := by
  refine ⟨?_, ?_, ?_⟩
  · intro a b
    cases a <;> cases b <;> simp [segCmp]
    · exact lexCmp_lawful.eq_iff _ _
    · exact natCmp_lawful.eq_iff _ _
  · intro a b
    cases a <;> cases b <;> simp [segCmp]
    · exact lexCmp_lawful.gt_iff _ _
    · exact natCmp_lawful.gt_iff _ _
  · intro a b c hab hbc
    cases a <;> cases b <;> cases c <;> simp_all [segCmp]
    · exact lexCmp_lawful.lt_trans _ _ _ hab hbc
    · exact natCmp_lawful.lt_trans _ _ _ hab hbc

theorem keyCmp_lawful : LawfulCmp keyCmp := listCmp_lawful segCmp_lawful

/-! ## Sorting lemmas -/

theorem contains_iff_mem (l : List String) (a : String) :
    l.contains a = true ↔ a ∈ l := by
  simp [List.contains, List.elem_iff]

theorem orderedInsertB_cons_le {le : String → String → Bool} {a b : String}
    (l : List String) (h : le a b = true) :
    orderedInsertB le a (b :: l) = a :: b :: l := by
  simp only [orderedInsertB]
  rw [if_pos h]

theorem orderedInsertB_cons_gt {le : String → String → Bool} {a b : String}
    (l : List String) (h : le a b = false) :
    orderedInsertB le a (b :: l) = b :: orderedInsertB le a l := by
  simp only [orderedInsertB]
  rw [if_neg (by simp [h])]

theorem perm_orderedInsertB (le : String → String → Bool) (a : String) :
    ∀ l : List String, List.Perm (orderedInsertB le a l) (a :: l)
  | [] => List.Perm.refl _
  | b :: l => by
    by_cases h : le a b = true
    · rw [orderedInsertB_cons_le l h]
    · rw [orderedInsertB_cons_gt l (by simp_all)]
      exact ((perm_orderedInsertB le a l).cons b).trans (List.Perm.swap a b l)

theorem mem_orderedInsertB (le : String → String → Bool) (a x : String)
    (l : List String) : x ∈ orderedInsertB le a l ↔ x = a ∨ x ∈ l := by
  rw [(perm_orderedInsertB le a l).mem_iff]
  simp

theorem perm_insertionSortB (le : String → String → Bool) :
    ∀ l : List String, List.Perm (insertionSortB le l) l
  | [] => List.Perm.refl _
  | a :: l => by
    unfold insertionSortB
    exact (perm_orderedInsertB le a (insertionSortB le l)).trans
      ((perm_insertionSortB le l).cons a)

theorem mem_insertionSortB (le : String → String → Bool) (x : String)
    (l : List String) : x ∈ insertionSortB le l ↔ x ∈ l :=
  (perm_insertionSortB le l).mem_iff

theorem nodup_insertionSortB (le : String → String → Bool) (l : List String)
    (h : l.Nodup) : (insertionSortB le l).Nodup :=
  (perm_insertionSortB le l).nodup_iff.2 h

theorem pairwise_orderedInsertB (le : String → String → Bool)
    (htot : ∀ a b, le a b = true ∨ le b a = true)
    (htr : ∀ a b c, le a b = true → le b c = true → le a c = true)
    (a : String) :
    ∀ l : List String, l.Pairwise (fun x y => le x y = true) →
      (orderedInsertB le a l).Pairwise (fun x y => le x y = true)
  | [], _ => by simp [orderedInsertB]
  | b :: l, hl => by
    rw [List.pairwise_cons] at hl
    by_cases hle : le a b = true
    · rw [orderedInsertB_cons_le l hle, List.pairwise_cons]
      refine ⟨?_, List.pairwise_cons.2 hl⟩
      intro y hy
      rcases List.mem_cons.1 hy with hy | hy
      · subst hy
        exact hle
      · exact htr a b y hle (hl.1 y hy)
    · rw [orderedInsertB_cons_gt l (by simp_all), List.pairwise_cons]
      constructor
      · intro y hy
        rcases (mem_orderedInsertB le a y l).1 hy with hy | hy
        · subst hy
          rcases htot y b with h | h
          · exact absurd h hle
          · exact h
        · exact hl.1 y hy
      · exact pairwise_orderedInsertB le htot htr a l hl.2

theorem sorted_insertionSortB (le : String → String → Bool)
    (htot : ∀ a b, le a b = true ∨ le b a = true)
    (htr : ∀ a b c, le a b = true → le b c = true → le a c = true) :
    ∀ l : List String,
      (insertionSortB le l).Pairwise (fun x y => le x y = true)
  | [] => by simp [insertionSortB]
  | a :: l => by
    unfold insertionSortB
    exact pairwise_orderedInsertB le htot htr a _
      (sorted_insertionSortB le htot htr l)

/-- Two sorted lists with the same elements coincide, provided the order is
antisymmetric on those elements. -/
theorem sorted_eq_of_perm (le : String → String → Bool) :
    ∀ l₁ l₂ : List String, List.Perm l₁ l₂ →
      l₁.Pairwise (fun x y => le x y = true) →
      l₂.Pairwise (fun x y => le x y = true) →
      (∀ a ∈ l₁, ∀ b ∈ l₁, le a b = true → le b a = true → a = b) →
      l₁ = l₂
  | [], l₂, hp, _, _, _ => (hp.symm.eq_nil).symm
  | a :: t₁, l₂, hp, hs₁, hs₂, hanti => by
    cases l₂ with
    | nil => exact absurd hp.eq_nil (by simp)
    | cons b t₂ =>
      have hab : a = b := by
        by_cases heq : a = b
        · exact heq
        · have ha2 : a ∈ b :: t₂ := hp.mem_iff.1 (List.mem_cons_self a t₁)
          have hb1 : b ∈ a :: t₁ := hp.symm.mem_iff.1 (List.mem_cons_self b t₂)
          have hat2 : a ∈ t₂ := by
            rcases List.mem_cons.1 ha2 with h | h
            · exact absurd h heq
            · exact h
          have hbt1 : b ∈ t₁ := by
            rcases List.mem_cons.1 hb1 with h | h
            · exact absurd h.symm heq
            · exact h
          have h1 : le a b = true := (List.pairwise_cons.1 hs₁).1 b hbt1
          have h2 : le b a = true := (List.pairwise_cons.1 hs₂).1 a hat2
          exact hanti a (List.mem_cons_self a t₁) b (List.mem_cons.2 (Or.inr hbt1)) h1 h2
      subst hab
      have ht := hp.cons_inv
      have : t₁ = t₂ :=
        sorted_eq_of_perm le t₁ t₂ ht (List.pairwise_cons.1 hs₁).2
          (List.pairwise_cons.1 hs₂).2
          (fun x hx y hy => hanti x (List.mem_cons.2 (Or.inr hx))
            y (List.mem_cons.2 (Or.inr hy)))
      rw [this]

/-! ## Dedup lemmas -/

theorem pyDedupAux_cons_mem {seen : List String} {c : String} (l : List String)
    (h : c ∈ seen) : pyDedupAux seen (c :: l) = pyDedupAux seen l := by
  simp only [pyDedupAux]
  rw [if_pos ((contains_iff_mem seen c).2 h)]

theorem pyDedupAux_cons_not_mem {seen : List String} {c : String} (l : List String)
    (h : c ∉ seen) : pyDedupAux seen (c :: l) = c :: pyDedupAux (c :: seen) l := by
  simp only [pyDedupAux]
  rw [if_neg (by simp [contains_iff_mem, h])]

theorem mem_pyDedupAux (x : String) :
    ∀ (l seen : List String), x ∈ pyDedupAux seen l ↔ x ∈ l ∧ x ∉ seen
  | [], seen => by simp [pyDedupAux]
  | c :: l, seen => by
    by_cases hc : c ∈ seen
    · rw [pyDedupAux_cons_mem l hc, mem_pyDedupAux x l seen]
      constructor
      · exact fun h => ⟨List.mem_cons.2 (Or.inr h.1), h.2⟩
      · rintro ⟨h1, h2⟩
        rcases List.mem_cons.1 h1 with h | h
        · subst h
          exact absurd hc h2
        · exact ⟨h, h2⟩
    · rw [pyDedupAux_cons_not_mem l hc, List.mem_cons, mem_pyDedupAux x l (c :: seen)]
      constructor
      · rintro (h | ⟨h1, h2⟩)
        · subst h
          exact ⟨List.mem_cons_self x l, hc⟩
        · exact ⟨List.mem_cons.2 (Or.inr h1), fun hx => h2 (List.mem_cons.2 (Or.inr hx))⟩
      · rintro ⟨h1, h2⟩
        rcases List.mem_cons.1 h1 with h | h
        · exact Or.inl h
        · by_cases hxc : x = c
          · exact Or.inl hxc
          · exact Or.inr ⟨h, by simp [hxc, h2]⟩

theorem mem_pyDedup (x : String) (l : List String) : x ∈ pyDedup l ↔ x ∈ l := by
  unfold pyDedup
  rw [mem_pyDedupAux]
  simp

theorem nodup_pyDedupAux :
    ∀ (l seen : List String), (pyDedupAux seen l).Nodup
  | [], seen => by simp [pyDedupAux]
  | c :: l, seen => by
    by_cases hc : c ∈ seen
    · rw [pyDedupAux_cons_mem l hc]
      exact nodup_pyDedupAux l seen
    · rw [pyDedupAux_cons_not_mem l hc, List.nodup_cons]
      refine ⟨fun hmem => ?_, nodup_pyDedupAux l (c :: seen)⟩
      have := (mem_pyDedupAux c l (c :: seen)).1 hmem
      exact this.2 (List.mem_cons_self c seen)

theorem nodup_pyDedup (l : List String) : (pyDedup l).Nodup :=
  nodup_pyDedupAux l []

/-- Processing a duplicate-free block not yet seen copies it verbatim. -/
theorem pyDedupAux_append :
    ∀ (l : List String), l.Nodup → ∀ (seen y : List String), (∀ x ∈ l, x ∉ seen) →
      pyDedupAux seen (l ++ y) = l ++ pyDedupAux (l.reverse ++ seen) y
  | [], _ => by simp
  | c :: l, hnd => by
    intro seen y hdisj
    rw [List.cons_append,
      pyDedupAux_cons_not_mem (l ++ y) (hdisj c (List.mem_cons_self c l)),
      pyDedupAux_append l (List.nodup_cons.1 hnd).2 (c :: seen) y ?_]
    · rw [List.reverse_cons, List.append_assoc]
      simp
    · intro x hx
      rw [List.mem_cons]
      rintro (h | h)
      · exact (List.nodup_cons.1 hnd).1 (h ▸ hx)
      · exact hdisj x (List.mem_cons.2 (Or.inr hx)) h

/-- On a duplicate-free tail, dedup is a filter against the seen set. -/
theorem pyDedupAux_filter :
    ∀ (y : List String), y.Nodup → ∀ (seen : List String),
      pyDedupAux seen y = y.filter (fun c => !(seen.contains c))
  | [], _ => by simp [pyDedupAux]
  | c :: y, hnd => by
    intro seen
    rw [List.filter_cons]
    by_cases hc : c ∈ seen
    · rw [pyDedupAux_cons_mem y hc]
      have : (!seen.contains c) = false := by
        simp [contains_iff_mem, hc]
      rw [this]
      simp only [Bool.false_eq_true, if_false]
      exact pyDedupAux_filter y (List.nodup_cons.1 hnd).2 seen
    · rw [pyDedupAux_cons_not_mem y hc]
      have hcb : (!seen.contains c) = true := by
        simp [contains_iff_mem, hc]
      rw [hcb]
      simp only [if_true]
      rw [pyDedupAux_filter y (List.nodup_cons.1 hnd).2 (c :: seen)]
      congr 1
      apply List.filter_congr
      intro x hx
      have hxc : x ≠ c := by
        intro h
        exact (List.nodup_cons.1 hnd).1 (h ▸ hx)
      simp [contains_iff_mem, hxc]

/-! ## Order properties of the two orderings used by the planner -/

theorem natLeB_iff (s t : String) :
    natLeB s t = true ↔ keyCmp (natural_sort_key s) (natural_sort_key t) ≠ .gt := by
  unfold natLeB
  cases h : keyCmp (natural_sort_key s) (natural_sort_key t) <;> simp [h] <;> rfl

theorem natLeB_total (s t : String) : natLeB s t = true ∨ natLeB t s = true := by
  rcases keyCmp_lawful.le_total (natural_sort_key s) (natural_sort_key t) with h | h
  · exact Or.inl ((natLeB_iff s t).2 h)
  · exact Or.inr ((natLeB_iff t s).2 h)

theorem natLeB_trans (s t u : String) (h1 : natLeB s t = true)
    (h2 : natLeB t u = true) : natLeB s u = true :=
  (natLeB_iff s u).2 (keyCmp_lawful.le_trans ((natLeB_iff s t).1 h1) ((natLeB_iff t u).1 h2))

theorem natLeB_antisymm_key (s t : String) (h1 : natLeB s t = true)
    (h2 : natLeB t s = true) : natural_sort_key s = natural_sort_key t :=
  keyCmp_lawful.antisymm ((natLeB_iff s t).1 h1) ((natLeB_iff t s).1 h2)

theorem strLeB_iff (s t : String) :
    strLeB s t = true ↔ lexCmp s.data t.data ≠ .gt := by
  unfold strLeB
  cases h : lexCmp s.data t.data <;> simp [h] <;> rfl

theorem strLeB_total (s t : String) : strLeB s t = true ∨ strLeB t s = true := by
  rcases lexCmp_lawful.le_total s.data t.data with h | h
  · exact Or.inl ((strLeB_iff s t).2 h)
  · exact Or.inr ((strLeB_iff t s).2 h)

theorem strLeB_trans (s t u : String) (h1 : strLeB s t = true)
    (h2 : strLeB t u = true) : strLeB s u = true :=
  (strLeB_iff s u).2 (lexCmp_lawful.le_trans ((strLeB_iff s t).1 h1) ((strLeB_iff t u).1 h2))

theorem strLeB_antisymm (s t : String) (h1 : strLeB s t = true)
    (h2 : strLeB t s = true) : s = t := by
  have h := lexCmp_lawful.antisymm ((strLeB_iff s t).1 h1) ((strLeB_iff t s).1 h2)
  cases s
  cases t
  exact congrArg String.mk h

/-! ## Facts about the constants, checked by evaluation -/

theorem traceability_nodup : traceability_cols.Nodup := by decide

theorem traceability_not_pMatch : ∀ c ∈ traceability_cols, pMatch c = false := by decide

theorem template_nodup : TEMPLATE_SCHEMA.Nodup := by decide

theorem template_dropWhile_ne_nil :
    TEMPLATE_SCHEMA.dropWhile (fun c => !(pMatch c)) ≠ [] := by decide

theorem dropWhile_head_not (p : String → Bool) :
    ∀ (l : List String) (d : String) (r : List String),
      l.dropWhile p = d :: r → p d = false
  | [], _, _ => by simp
  | a :: l, d, r => by
    rw [List.dropWhile_cons]
    by_cases h : p a = true
    · rw [if_pos h]
      exact dropWhile_head_not p l d r
    · rw [if_neg h]
      intro he
      injection he with h1 _
      subst h1
      simpa using h

/-! ## Characterising the template walk -/

theorem planCond_iff (A : List String) (x : String) :
    planCond A x = true ↔ pMatch x = false ∧ x ∈ A ∧ x ∉ traceability_cols := by
  simp [planCond, contains_iff_mem, Bool.and_eq_true, Bool.not_eq_true', and_assoc]

theorem baseSchemaAux_nilP (A : List String) :
    ∀ (tmpl : List String) (pIns : Bool),
      baseSchemaAux A [] tmpl pIns = (tmpl.filter (planCond A), pIns)
  | [], pIns => by simp [baseSchemaAux]
  | col :: rest, pIns => by
    cases h : planCond A col <;>
      simp [baseSchemaAux, h, baseSchemaAux_nilP A rest pIns, List.filter_cons]

theorem baseSchemaAux_true_flag (A P : List String) :
    ∀ tmpl : List String,
      baseSchemaAux A P tmpl true = (tmpl.filter (planCond A), true)
  | [] => by simp [baseSchemaAux]
  | col :: rest => by
    cases h : planCond A col <;>
      simp [baseSchemaAux, h, baseSchemaAux_true_flag A P rest, List.filter_cons]

theorem baseSchemaAux_false_flag (A P : List String) (hP : P ≠ []) :
    ∀ tmpl : List String,
      baseSchemaAux A P tmpl false
        = ((tmpl.takeWhile (fun c => !(pMatch c))).filter (planCond A)
            ++ (match tmpl.dropWhile (fun c => !(pMatch c)) with
                | [] => []
                | _ :: post => P ++ post.filter (planCond A)),
           !(tmpl.dropWhile (fun c => !(pMatch c))).isEmpty)
  | [] => by simp [baseSchemaAux]
  | col :: rest => by
    have hpe : P.isEmpty = false := by
      cases P with
      | nil => exact absurd rfl hP
      | cons a l => rfl
    cases hpm : pMatch col with
    | true =>
      have hpc : planCond A col = false := by simp [planCond, hpm]
      simp [baseSchemaAux, hpc, hpm, hpe, baseSchemaAux_true_flag A P rest,
        List.takeWhile_cons, List.dropWhile_cons]
    | false =>
      cases hpc : planCond A col <;>
        simp [baseSchemaAux, hpc, hpm, baseSchemaAux_false_flag A P hP rest,
          List.takeWhile_cons, List.dropWhile_cons, List.filter_cons]

/-! ## Master characterisation of the planner -/

/-- The naturally sorted block of discovered question columns. -/
def sortedPCols (A : List String) : List String :=
  insertionSortB natLeB (A.filter (fun c => pMatch c))

/-- The alphabetically sorted block of discovered names outside the known
schema. -/
def unexpectedCols (A : List String) : List String :=
  insertionSortB strLeB
    (A.filter (fun c => !((traceability_cols ++ TEMPLATE_SCHEMA).contains c)))

/-- The template entries before its first question entry. -/
def templateHead : List String :=
  TEMPLATE_SCHEMA.takeWhile (fun c => !(pMatch c))

/-- The template entries after its first question entry. -/
def templateTail : List String :=
  (TEMPLATE_SCHEMA.dropWhile (fun c => !(pMatch c))).tail

theorem mem_sortedPCols (A : List String) (x : String) :
    x ∈ sortedPCols A ↔ x ∈ A ∧ pMatch x = true := by
  rw [sortedPCols, mem_insertionSortB, List.mem_filter]

theorem mem_unexpectedCols (A : List String) (x : String) :
    x ∈ unexpectedCols A ↔ x ∈ A ∧ x ∉ traceability_cols ∧ x ∉ TEMPLATE_SCHEMA := by
  rw [unexpectedCols, mem_insertionSortB, List.mem_filter]
  simp [contains_iff_mem, not_or]

theorem templateHead_not_pMatch : ∀ x ∈ templateHead, pMatch x = false := by
  intro x hx
  have := List.mem_takeWhile_imp hx
  simpa using this

theorem templateHead_sub : ∀ x ∈ templateHead, x ∈ TEMPLATE_SCHEMA :=
  fun _ hx => (List.takeWhile_sublist _).subset hx

theorem templateTail_sub : ∀ x ∈ templateTail, x ∈ TEMPLATE_SCHEMA := by
  intro x hx
  apply (List.dropWhile_sublist (fun c => !(pMatch c))).subset
  exact (List.tail_sublist _).subset hx

/-- The first question entry of the template exists. -/
theorem template_dw_eq :
    TEMPLATE_SCHEMA.dropWhile (fun c => !(pMatch c)) = "P1" :: templateTail := by
  decide

theorem nodup_sortedPCols (A : List String) (hA : A.Nodup) : (sortedPCols A).Nodup :=
  nodup_insertionSortB _ _ (hA.filter _)

theorem nodup_unexpectedCols (A : List String) (hA : A.Nodup) : (unexpectedCols A).Nodup :=
  nodup_insertionSortB _ _ (hA.filter _)

theorem pMatch_P1 : pMatch "P1" = true := by decide

theorem planCond_P1 (A : List String) : planCond A "P1" = false := by
  simp [planCond, pMatch_P1]

/-- Case of the master lemma where no question column was discovered. -/
theorem build_eq_nilP (A : List String) (hA : A.Nodup)
    (hPe : sortedPCols A = []) :
    _build_intelligent_column_order A
      = traceability_cols.filter (fun c => A.contains c)
        ++ templateHead.filter (planCond A)
        ++ sortedPCols A
        ++ templateTail.filter (planCond A)
        ++ (unexpectedCols A).filter (fun c => !(pMatch c)) := by
  have hfil : A.filter (fun c => pMatch c) = [] := by
    have hperm := perm_insertionSortB natLeB (A.filter (fun c => pMatch c))
    rw [show insertionSortB natLeB (A.filter (fun c => pMatch c)) = sortedPCols A from rfl,
      hPe] at hperm
    exact hperm.symm.eq_nil
  have hnoP : ∀ x ∈ A, pMatch x = false := by
    intro x hx
    by_contra hc
    have hx2 : x ∈ A.filter (fun c => pMatch c) :=
      List.mem_filter.2 ⟨hx, by simpa using hc⟩
    rw [hfil] at hx2
    simp at hx2
  have hbuild : _build_intelligent_column_order A
      = pyDedup ((traceability_cols.filter (fun c => A.contains c)
          ++ TEMPLATE_SCHEMA.filter (planCond A)) ++ unexpectedCols A) := by
    simp only [_build_intelligent_column_order]
    rw [show insertionSortB natLeB (A.filter (fun c => pMatch c)) = sortedPCols A from rfl,
      hPe, baseSchemaAux_nilP A TEMPLATE_SCHEMA false]
    simp [unexpectedCols, List.append_assoc]
  have hLnd : (traceability_cols.filter (fun c => A.contains c)
      ++ TEMPLATE_SCHEMA.filter (planCond A)).Nodup := by
    rw [List.nodup_append]
    refine ⟨traceability_nodup.filter _, template_nodup.filter _, ?_⟩
    intro x hx1 hx2
    have h1 : x ∈ traceability_cols := (List.mem_filter.1 hx1).1
    have h2 := (List.mem_filter.1 hx2).2
    exact ((planCond_iff A x).1 h2).2.2 h1
  have hUskip : ∀ u ∈ unexpectedCols A,
      u ∉ traceability_cols.filter (fun c => A.contains c)
          ++ TEMPLATE_SCHEMA.filter (planCond A) := by
    intro u hu hmem
    rcases (mem_unexpectedCols A u).1 hu with ⟨_, hut, huT⟩
    rcases List.mem_append.1 hmem with h | h
    · exact hut (List.mem_filter.1 h).1
    · exact huT (List.mem_filter.1 h).1
  rw [hbuild, pyDedup,
    pyDedupAux_append _ hLnd [] (unexpectedCols A) (by simp),
    pyDedupAux_filter _ (nodup_unexpectedCols A hA)]
  have hfu : (unexpectedCols A).filter
      (fun c => !(((traceability_cols.filter (fun c => A.contains c)
        ++ TEMPLATE_SCHEMA.filter (planCond A)).reverse ++ []).contains c))
      = unexpectedCols A := by
    rw [List.filter_eq_self]
    intro u hu
    simp only [List.append_nil, Bool.not_eq_true', Bool.eq_false_iff]
    intro hc
    have := (contains_iff_mem _ _).1 hc
    rw [List.mem_reverse] at this
    exact hUskip u hu this
  rw [hfu]
  have hTsplit : TEMPLATE_SCHEMA.filter (planCond A)
      = templateHead.filter (planCond A) ++ templateTail.filter (planCond A) := by
    have h := congrArg (List.filter (planCond A))
      (List.takeWhile_append_dropWhile (p := fun c => !(pMatch c)) (l := TEMPLATE_SCHEMA))
    rw [List.filter_append] at h
    rw [← h, template_dw_eq, List.filter_cons]
    simp [planCond_P1, templateHead]
  have hUf : (unexpectedCols A).filter (fun c => !(pMatch c)) = unexpectedCols A := by
    rw [List.filter_eq_self]
    intro u hu
    have := hnoP u ((mem_unexpectedCols A u).1 hu).1
    simp [this]
  rw [hTsplit, hUf, hPe]
  simp [List.append_assoc]

/-- Case of the master lemma where question columns exist: the sorted block
is spliced at the position of the first question entry of the template. -/
theorem build_eq_consP (A : List String) (hA : A.Nodup)
    (hPe : sortedPCols A ≠ []) :
    _build_intelligent_column_order A
      = traceability_cols.filter (fun c => A.contains c)
        ++ templateHead.filter (planCond A)
        ++ sortedPCols A
        ++ templateTail.filter (planCond A)
        ++ (unexpectedCols A).filter (fun c => !(pMatch c)) := by
  have hbuild : _build_intelligent_column_order A
      = pyDedup ((traceability_cols.filter (fun c => A.contains c)
          ++ (templateHead.filter (planCond A)
            ++ (sortedPCols A ++ templateTail.filter (planCond A))))
          ++ unexpectedCols A) := by
    simp only [_build_intelligent_column_order]
    rw [show insertionSortB natLeB (A.filter (fun c => pMatch c)) = sortedPCols A from rfl,
      baseSchemaAux_false_flag A (sortedPCols A) hPe TEMPLATE_SCHEMA,
      template_dw_eq]
    simp [unexpectedCols, templateHead, List.append_assoc]
  have hXnd : (traceability_cols.filter (fun c => A.contains c)
      ++ (templateHead.filter (planCond A)
        ++ (sortedPCols A ++ templateTail.filter (planCond A)))).Nodup := by
    rw [List.nodup_append, List.nodup_append, List.nodup_append]
    have htt : List.Disjoint templateHead templateTail := by
      have h := template_nodup
      rw [← List.takeWhile_append_dropWhile (p := fun c => !(pMatch c))
        (l := TEMPLATE_SCHEMA), template_dw_eq] at h
      rw [List.nodup_append] at h
      intro x hx1 hx2
      exact h.2.2 hx1 (List.mem_cons.2 (Or.inr hx2))
    refine ⟨traceability_nodup.filter _,
      ⟨((List.takeWhile_sublist _).nodup template_nodup).filter _,
        ⟨nodup_sortedPCols A hA,
         (((List.tail_sublist _).trans (List.dropWhile_sublist _)).nodup
            template_nodup).filter _, ?_⟩, ?_⟩, ?_⟩
    · -- sorted question block is disjoint from the template tail part
      intro x hx1 hx2
      have h1 := ((mem_sortedPCols A x).1 hx1).2
      have h2 := ((planCond_iff A x).1 (List.mem_filter.1 hx2).2).1
      rw [h1] at h2
      cases h2
    · -- template head part is disjoint from question block and tail part
      intro x hx1 hx2
      have hx1p := ((planCond_iff A x).1 (List.mem_filter.1 hx1).2).1
      rcases List.mem_append.1 hx2 with h | h
      · have := ((mem_sortedPCols A x).1 h).2
        rw [this] at hx1p
        cases hx1p
      · exact htt (List.mem_filter.1 hx1).1 (List.mem_filter.1 h).1
    · -- provenance block is disjoint from all template and question parts
      intro x hx1 hx2
      have hxt : x ∈ traceability_cols := (List.mem_filter.1 hx1).1
      rcases List.mem_append.1 hx2 with h | h
      · exact ((planCond_iff A x).1 (List.mem_filter.1 h).2).2.2 hxt
      · rcases List.mem_append.1 h with h | h
        · have := ((mem_sortedPCols A x).1 h).2
          have h2 := traceability_not_pMatch x hxt
          rw [this] at h2
          cases h2
        · exact ((planCond_iff A x).1 (List.mem_filter.1 h).2).2.2 hxt
  rw [hbuild, pyDedup,
    pyDedupAux_append _ hXnd [] (unexpectedCols A) (by simp),
    pyDedupAux_filter _ (nodup_unexpectedCols A hA)]
  have hfu : (unexpectedCols A).filter
      (fun c => !(((traceability_cols.filter (fun c => A.contains c)
        ++ (templateHead.filter (planCond A)
          ++ (sortedPCols A ++ templateTail.filter (planCond A)))).reverse
          ++ []).contains c))
      = (unexpectedCols A).filter (fun c => !(pMatch c)) := by
    apply List.filter_congr
    intro u hu
    rcases (mem_unexpectedCols A u).1 hu with ⟨huA, hut, huT⟩
    congr 1
    rw [Bool.eq_iff_iff, contains_iff_mem]
    simp only [List.append_nil, List.mem_reverse]
    constructor
    · intro hmem
      rcases List.mem_append.1 hmem with h | h
      · exact absurd (List.mem_filter.1 h).1 hut
      · rcases List.mem_append.1 h with h | h
        · exact absurd (templateHead_sub u (List.mem_filter.1 h).1) huT
        · rcases List.mem_append.1 h with h | h
          · exact ((mem_sortedPCols A u).1 h).2
          · exact absurd (templateTail_sub u (List.mem_filter.1 h).1) huT
    · intro hp
      apply List.mem_append.2
      right
      apply List.mem_append.2
      right
      apply List.mem_append.2
      left
      exact (mem_sortedPCols A u).2 ⟨huA, hp⟩
  rw [hfu]
  simp [List.append_assoc]

/-- Master characterisation of the planner on duplicate-free input: the
provenance names present come first, then the non-question template entries
preceding the first question entry of the template, then the naturally
sorted question block, then the remaining non-question template entries
present, then the alphabetically sorted unexpected non-question names. -/
theorem build_eq (A : List String) (hA : A.Nodup) :
    _build_intelligent_column_order A
      = traceability_cols.filter (fun c => A.contains c)
        ++ templateHead.filter (planCond A)
        ++ sortedPCols A
        ++ templateTail.filter (planCond A)
        ++ (unexpectedCols A).filter (fun c => !(pMatch c)) := by
  by_cases hPe : sortedPCols A = []
  · exact build_eq_nilP A hA hPe
  · exact build_eq_consP A hA hPe

/-! ## Claim C1: the planner output is a permutation of exactly the input set -/

/-- The planner never emits a duplicate (its final comprehension dedups). -/
theorem build_nodup (A : List String) :
    (_build_intelligent_column_order A).Nodup := by
  simp only [_build_intelligent_column_order]
  exact nodup_pyDedup _

/-- A name occurs in the planner output exactly when it was discovered. -/
theorem mem_build (A : List String) (hA : A.Nodup) :
    ∀ c, c ∈ _build_intelligent_column_order A ↔ c ∈ A := by
    intro c
    rw [build_eq A hA]
    constructor
    · intro h
      simp only [List.mem_append] at h
      rcases h with ((((h | h) | h) | h) | h)
      · exact (contains_iff_mem A c).1 (List.mem_filter.1 h).2
      · exact ((planCond_iff A c).1 (List.mem_filter.1 h).2).2.1
      · exact ((mem_sortedPCols A c).1 h).1
      · exact ((planCond_iff A c).1 (List.mem_filter.1 h).2).2.1
      · exact ((mem_unexpectedCols A c).1 (List.mem_filter.1 h).1).1
    · intro hc
      simp only [List.mem_append]
      by_cases ht : c ∈ traceability_cols
      · exact Or.inl (Or.inl (Or.inl (Or.inl
          (List.mem_filter.2 ⟨ht, (contains_iff_mem A c).2 hc⟩))))
      · by_cases hp : pMatch c = true
        · exact Or.inl (Or.inl (Or.inr ((mem_sortedPCols A c).2 ⟨hc, hp⟩)))
        · have hpf : pMatch c = false := by
            cases hpm : pMatch c
            · rfl
            · exact absurd hpm hp
          by_cases hT : c ∈ TEMPLATE_SCHEMA
          · rw [← List.takeWhile_append_dropWhile (p := fun c => !(pMatch c))
              (l := TEMPLATE_SCHEMA), template_dw_eq] at hT
            rcases List.mem_append.1 hT with h | h
            · exact Or.inl (Or.inl (Or.inl (Or.inr (List.mem_filter.2
                ⟨h, (planCond_iff A c).2 ⟨hpf, hc, ht⟩⟩))))
            · rcases List.mem_cons.1 h with h | h
              · rw [h, pMatch_P1] at hpf
                cases hpf
              · exact Or.inl (Or.inr (List.mem_filter.2
                  ⟨h, (planCond_iff A c).2 ⟨hpf, hc, ht⟩⟩))
          · exact Or.inr (List.mem_filter.2
              ⟨(mem_unexpectedCols A c).2 ⟨hc, ht, hT⟩, by simp [hpf]⟩)

/-- C1: for every finite set S of column names given to the Column Order
Planner (_build_intelligent_column_order, the input list being the iteration
order of the set, hence duplicate free), the returned sequence is a
permutation of exactly S: it is duplicate free, and a name occurs in the
output exactly when it occurs in S. -/
theorem C1_planner_permutation (A : List String) (hA : A.Nodup) :
    (_build_intelligent_column_order A).Nodup ∧
      ∀ c, c ∈ _build_intelligent_column_order A ↔ c ∈ A :=
  ⟨build_nodup A, mem_build A hA⟩

/-- C1 witness at a concrete input. -/
theorem C1_planner_permutation_witness :
    (_build_intelligent_column_order ["P10", "Autor", "Nova_A", "P2"]).Nodup ∧
      ∀ c, c ∈ _build_intelligent_column_order ["P10", "Autor", "Nova_A", "P2"] ↔
        c ∈ ["P10", "Autor", "Nova_A", "P2"] :=
  C1_planner_permutation ["P10", "Autor", "Nova_A", "P2"] (by decide)

/-! ## Claim C3: the question columns form one contiguous naturally sorted block -/

/-- C3: for every duplicate-free input, the question columns (names matching
the P-digit pattern) appear in the planner output as one contiguous block,
namely the stable sort of the discovered question columns by the natural
key, with no question name before or after the block; on the concrete input
P10, P2, P1 the relative order is P1, P2, P10. -/
theorem C3_question_block_sorted :
    (∀ A : List String, A.Nodup →
      ∃ pre post,
        _build_intelligent_column_order A = pre ++ sortedPCols A ++ post
        ∧ (∀ c ∈ pre, pMatch c = false)
        ∧ (∀ c ∈ post, pMatch c = false)
        ∧ (sortedPCols A).Pairwise (fun s t => natLeB s t = true)
        ∧ (∀ c, c ∈ sortedPCols A ↔ c ∈ A ∧ pMatch c = true))
    ∧ _build_intelligent_column_order ["P10", "P2", "P1"] = ["P1", "P2", "P10"] := by
  constructor
  · intro A hA
    refine ⟨traceability_cols.filter (fun c => A.contains c)
        ++ templateHead.filter (planCond A),
      templateTail.filter (planCond A)
        ++ (unexpectedCols A).filter (fun c => !(pMatch c)), ?_, ?_, ?_, ?_,
      fun c => mem_sortedPCols A c⟩
    · rw [build_eq A hA]
      simp [List.append_assoc]
    · intro c hc
      rcases List.mem_append.1 hc with h | h
      · exact traceability_not_pMatch c (List.mem_filter.1 h).1
      · exact ((planCond_iff A c).1 (List.mem_filter.1 h).2).1
    · intro c hc
      rcases List.mem_append.1 hc with h | h
      · exact ((planCond_iff A c).1 (List.mem_filter.1 h).2).1
      · have := (List.mem_filter.1 h).2
        simpa using this
    · exact sorted_insertionSortB natLeB natLeB_total natLeB_trans _
  · decide

/-- C3 witness at a concrete input. -/
theorem C3_question_block_sorted_witness :
    ∃ pre post,
      _build_intelligent_column_order ["P10", "P2", "P1"]
        = pre ++ sortedPCols ["P10", "P2", "P1"] ++ post
      ∧ (∀ c ∈ pre, pMatch c = false)
      ∧ (∀ c ∈ post, pMatch c = false)
      ∧ (sortedPCols ["P10", "P2", "P1"]).Pairwise (fun s t => natLeB s t = true)
      ∧ (∀ c, c ∈ sortedPCols ["P10", "P2", "P1"] ↔
          c ∈ ["P10", "P2", "P1"] ∧ pMatch c = true) :=
  C3_question_block_sorted.1 ["P10", "P2", "P1"] (by decide)

/-! ## Claim C10: every P-digit name lands inside the question block -/

/-- C10: every discovered name starting with an uppercase P followed by a
digit, even one that is not of the full question form and absent from the
template (such as P5extra), occurs exactly once in the planner output,
inside the naturally sorted question block, and never in the unexpected
tail or any other part. -/
theorem C10_pdigit_inside_question_block (A : List String) (hA : A.Nodup)
    (c : String) (hc : c ∈ A) (hp : pMatch c = true) :
    List.count c (_build_intelligent_column_order A) = 1
    ∧ ∃ pre post,
        _build_intelligent_column_order A = pre ++ sortedPCols A ++ post
        ∧ c ∈ sortedPCols A ∧ c ∉ pre ∧ c ∉ post := by
  constructor
  · exact List.count_eq_one_of_mem (build_nodup A) ((mem_build A hA c).2 hc)
  · refine ⟨traceability_cols.filter (fun c => A.contains c)
        ++ templateHead.filter (planCond A),
      templateTail.filter (planCond A)
        ++ (unexpectedCols A).filter (fun c => !(pMatch c)), ?_,
      (mem_sortedPCols A c).2 ⟨hc, hp⟩, ?_, ?_⟩
    · rw [build_eq A hA]
      simp [List.append_assoc]
    · intro hmem
      rcases List.mem_append.1 hmem with h | h
      · have := traceability_not_pMatch c (List.mem_filter.1 h).1
        rw [hp] at this
        cases this
      · have := ((planCond_iff A c).1 (List.mem_filter.1 h).2).1
        rw [hp] at this
        cases this
    · intro hmem
      rcases List.mem_append.1 hmem with h | h
      · have := ((planCond_iff A c).1 (List.mem_filter.1 h).2).1
        rw [hp] at this
        cases this
      · have := (List.mem_filter.1 h).2
        rw [hp] at this
        simp at this

/-- C10 witness at a concrete input containing P5extra, a name that starts
with a P and a digit but is not of the full question form and is absent
from the template. -/
theorem C10_pdigit_inside_question_block_witness :
    List.count "P5extra" (_build_intelligent_column_order ["P5extra", "Autor", "Nova_A"]) = 1
    ∧ ∃ pre post,
        _build_intelligent_column_order ["P5extra", "Autor", "Nova_A"]
          = pre ++ sortedPCols ["P5extra", "Autor", "Nova_A"] ++ post
        ∧ "P5extra" ∈ sortedPCols ["P5extra", "Autor", "Nova_A"]
        ∧ "P5extra" ∉ pre ∧ "P5extra" ∉ post :=
  C10_pdigit_inside_question_block ["P5extra", "Autor", "Nova_A"] (by decide)
    "P5extra" (by decide) (by decide)

/-! ## Claim C7: order independence of the planner -/

/-- C7 counterexample: the two iteration orders of the two-element set
holding P1 and P01 give different planner outputs, because both names have
the very same natural sort key and the sort is stable, so the tie is broken
by iteration order; hence the output is not a pure function of the set. -/
theorem C7_counterexample :
    List.Perm ["P1", "P01"] ["P01", "P1"]
    ∧ _build_intelligent_column_order ["P1", "P01"]
        ≠ _build_intelligent_column_order ["P01", "P1"] :=
  ⟨List.Perm.swap "P01" "P1" [], by decide⟩

/-- The template walk only looks at membership in the discovered set. -/
theorem baseSchemaAux_congr (A A' P : List String)
    (h : ∀ c, A.contains c = A'.contains c) :
    ∀ (tmpl : List String) (pIns : Bool),
      baseSchemaAux A P tmpl pIns = baseSchemaAux A' P tmpl pIns
  | [], _ => by simp [baseSchemaAux]
  | col :: rest, pIns => by
    have hpc : planCond A col = planCond A' col := by
      unfold planCond
      rw [h col]
    simp only [baseSchemaAux, hpc, baseSchemaAux_congr A A' P h rest]

/-- C7 amended: the planner output is invariant under the iteration order of
the discovered set provided no two distinct discovered names share the same
natural sort key (for example P1 next to P01 breaks this); idempotence on a
fixed iteration order holds unconditionally since the planner is a pure
function. -/
theorem C7_amended_order_independent (l l' : List String)
    (hp : List.Perm l l')
    (hinj : ∀ a ∈ l, ∀ b ∈ l, natural_sort_key a = natural_sort_key b → a = b) :
    _build_intelligent_column_order l = _build_intelligent_column_order l' := by
  have hc : ∀ c, l.contains c = l'.contains c := by
    intro c
    rw [Bool.eq_iff_iff, contains_iff_mem, contains_iff_mem]
    exact hp.mem_iff
  have h1 : traceability_cols.filter (fun c => l.contains c)
      = traceability_cols.filter (fun c => l'.contains c) :=
    List.filter_congr (fun c _ => hc c)
  have h2 : insertionSortB natLeB (l.filter (fun c => pMatch c))
      = insertionSortB natLeB (l'.filter (fun c => pMatch c)) := by
    apply sorted_eq_of_perm natLeB
    · exact ((perm_insertionSortB _ _).trans (hp.filter _)).trans
        (perm_insertionSortB _ _).symm
    · exact sorted_insertionSortB natLeB natLeB_total natLeB_trans _
    · exact sorted_insertionSortB natLeB natLeB_total natLeB_trans _
    · intro a ha b hb hab hba
      have ha' : a ∈ l := (List.mem_filter.1 ((mem_insertionSortB _ _ _).1 ha)).1
      have hb' : b ∈ l := (List.mem_filter.1 ((mem_insertionSortB _ _ _).1 hb)).1
      exact hinj a ha' b hb' (natLeB_antisymm_key a b hab hba)
  have h4 : insertionSortB strLeB
        (l.filter (fun c => !((traceability_cols ++ TEMPLATE_SCHEMA).contains c)))
      = insertionSortB strLeB
        (l'.filter (fun c => !((traceability_cols ++ TEMPLATE_SCHEMA).contains c))) := by
    apply sorted_eq_of_perm strLeB
    · exact ((perm_insertionSortB _ _).trans (hp.filter _)).trans
        (perm_insertionSortB _ _).symm
    · exact sorted_insertionSortB strLeB strLeB_total strLeB_trans _
    · exact sorted_insertionSortB strLeB strLeB_total strLeB_trans _
    · intro a _ b _ hab hba
      exact strLeB_antisymm a b hab hba
  simp only [_build_intelligent_column_order]
  rw [h1, h2, h4, baseSchemaAux_congr l l'
    (insertionSortB natLeB (l'.filter (fun c => pMatch c))) hc TEMPLATE_SCHEMA false]

/-- C7 amended witness at a concrete pair of iteration orders. -/
theorem C7_amended_order_independent_witness :
    _build_intelligent_column_order ["P2", "P10", "Autor"]
      = _build_intelligent_column_order ["P10", "Autor", "P2"] :=
  C7_amended_order_independent ["P2", "P10", "Autor"] ["P10", "Autor", "P2"]
    (by decide) (by decide)

/-! ## Alternation of the fragments of a natural sort key (claim C4) -/

/-- Adjacent key fragments have different kinds: maximal runs alternate. -/
def altSeg (a b : Seg) : Prop := a.isNum ≠ b.isNum

theorem pushChar_ne_nil (acc : List Seg) (c : Char) : pushChar acc c ≠ [] := by
  unfold pushChar
  split
  · cases acc with
    | nil => simp
    | cons x rest => cases x <;> simp
  · cases acc with
    | nil => simp
    | cons x rest => cases x <;> simp

theorem pushChar_chain (acc : List Seg) (c : Char)
    (h : List.Chain' altSeg acc) : List.Chain' altSeg (pushChar acc c) := by
  unfold pushChar
  split
  · cases acc with
    | nil => simp
    | cons x rest =>
      cases x with
      | num n =>
        simp only
        rw [List.chain'_cons'] at h ⊢
        refine ⟨?_, h.2⟩
        intro y hy
        have := h.1 y hy
        exact this
      | txt cs =>
        simp only
        rw [List.chain'_cons']
        refine ⟨?_, h⟩
        intro y hy
        cases rest with
        | nil => simp at hy; rw [← hy]; simp [altSeg, Seg.isNum]
        | cons z zs =>
          simp at hy
          rw [← hy]
          simp [altSeg, Seg.isNum]
  · cases acc with
    | nil => simp
    | cons x rest =>
      cases x with
      | txt cs =>
        simp only
        rw [List.chain'_cons'] at h ⊢
        refine ⟨?_, h.2⟩
        intro y hy
        have := h.1 y hy
        exact this
      | num n =>
        simp only
        rw [List.chain'_cons']
        refine ⟨?_, h⟩
        intro y hy
        cases rest with
        | nil => simp at hy; rw [← hy]; simp [altSeg, Seg.isNum]
        | cons z zs =>
          simp at hy
          rw [← hy]
          simp [altSeg, Seg.isNum]

theorem foldl_pushChar_chain :
    ∀ (cs : List Char) (acc : List Seg), List.Chain' altSeg acc →
      List.Chain' altSeg (cs.foldl pushChar acc)
  | [], _, h => h
  | c :: cs, acc, h =>
    foldl_pushChar_chain cs (pushChar acc c) (pushChar_chain acc c h)

theorem pushChar_last_isNum (acc : List Seg) (c : Char) (h : acc ≠ []) :
    (pushChar acc c).getLast?.map Seg.isNum = acc.getLast?.map Seg.isNum := by
  unfold pushChar
  split
  · cases acc with
    | nil => exact absurd rfl h
    | cons x rest =>
      cases x with
      | num n =>
        simp only
        cases rest with
        | nil => rfl
        | cons z zs => simp [List.getLast?_cons_cons]
      | txt cs => simp [List.getLast?_cons_cons]
  · cases acc with
    | nil => exact absurd rfl h
    | cons x rest =>
      cases x with
      | txt cs =>
        simp only
        cases rest with
        | nil => rfl
        | cons z zs => simp [List.getLast?_cons_cons]
      | num n => simp [List.getLast?_cons_cons]

theorem foldl_pushChar_last :
    ∀ (cs : List Char) (acc : List Seg), acc ≠ [] →
      (cs.foldl pushChar acc) ≠ []
      ∧ (cs.foldl pushChar acc).getLast?.map Seg.isNum
          = acc.getLast?.map Seg.isNum
  | [], acc, h => ⟨h, rfl⟩
  | c :: cs, acc, h => by
    have hne := pushChar_ne_nil acc c
    have ih := foldl_pushChar_last cs (pushChar acc c) hne
    exact ⟨ih.1, ih.2.trans (pushChar_last_isNum acc c h)⟩

/-- The fragments of a key alternate between text and number kinds. -/
theorem groupKey_chain (l : List Char) : List.Chain' altSeg (groupKey l) := by
  unfold groupKey
  rw [List.chain'_reverse]
  have h := foldl_pushChar_chain l [] (by simp)
  exact h.imp (fun a b hab => Ne.symm hab)

/-- The first fragment of a nonempty key is a number exactly when the first
character is a digit. -/
theorem groupKey_head_isNum (c : Char) (cs : List Char) (x : Seg) (xs : List Seg)
    (h : groupKey (c :: cs) = x :: xs) : x.isNum = c.isDigit := by
  have h0 : pushChar [] c ≠ [] := pushChar_ne_nil [] c
  have hlast := foldl_pushChar_last cs (pushChar [] c) h0
  have hstep : List.foldl pushChar [] (c :: cs) = cs.foldl pushChar (pushChar [] c) := rfl
  have hrev : (groupKey (c :: cs)).head? = (cs.foldl pushChar (pushChar [] c)).getLast? := by
    unfold groupKey
    rw [hstep, List.head?_reverse]
  rw [h] at hrev
  have hbase : (pushChar [] c).getLast?.map Seg.isNum = some c.isDigit := by
    unfold pushChar
    split
    · simp only
      simpa [Seg.isNum] using (by assumption : c.isDigit = true).symm
    · simp only
      have : c.isDigit = false := by
        rw [Bool.eq_false_iff]
        assumption
      simp [Seg.isNum, this]
  have := hlast.2.trans hbase
  rw [← hrev] at this
  simp at this
  exact this

/-- On keys whose fragments alternate and whose first fragments have the
same kind, Python tuple comparison is defined and agrees with the total
comparison keyCmp. -/
theorem pyCompareKey_defined :
    ∀ k₁ k₂ : List Seg, List.Chain' altSeg k₁ → List.Chain' altSeg k₂ →
      (∀ x y, k₁.head? = some x → k₂.head? = some y → x.isNum = y.isNum) →
      pyCompareKey k₁ k₂ = some (keyCmp k₁ k₂)
  | [], [], _, _, _ => rfl
  | [], b :: bs, _, _, _ => by cases b <;> rfl
  | a :: as, [], _, _, _ => by cases a <;> rfl
  | a :: as, b :: bs, h₁, h₂, hhead => by
    have hab := hhead a b rfl rfl
    cases a with
    | txt x =>
      cases b with
      | num m => simp [Seg.isNum] at hab
      | txt y =>
        show (match lexCmp x y with
          | .eq => pyCompareKey as bs
          | o => some o)
          = some (match segCmp (.txt x) (.txt y) with
            | .eq => keyCmp as bs
            | o => o)
        have hseg : segCmp (.txt x) (.txt y) = lexCmp x y := rfl
        rw [hseg]
        cases hxy : lexCmp x y with
        | lt => rfl
        | gt => rfl
        | eq =>
          simp only
          apply pyCompareKey_defined as bs h₁.tail h₂.tail
          intro u v hu hv
          cases as with
          | nil => simp at hu
          | cons a' as' =>
            cases bs with
            | nil => simp at hv
            | cons b' bs' =>
              simp at hu hv
              have h1 := List.chain'_cons.1 h₁
              have h2 := List.chain'_cons.1 h₂
              have e1 : u.isNum = true := by
                have := h1.1
                rw [hu] at this
                simp [altSeg, Seg.isNum] at this
                simpa using this
              have e2 : v.isNum = true := by
                have := h2.1
                rw [hv] at this
                simp [altSeg, Seg.isNum] at this
                simpa using this
              rw [e1, e2]
    | num n =>
      cases b with
      | txt y => simp [Seg.isNum] at hab
      | num m =>
        show (match natCmp n m with
          | .eq => pyCompareKey as bs
          | o => some o)
          = some (match segCmp (.num n) (.num m) with
            | .eq => keyCmp as bs
            | o => o)
        have hseg : segCmp (.num n) (.num m) = natCmp n m := rfl
        rw [hseg]
        cases hxy : natCmp n m with
        | lt => rfl
        | gt => rfl
        | eq =>
          simp only
          apply pyCompareKey_defined as bs h₁.tail h₂.tail
          intro u v hu hv
          cases as with
          | nil => simp at hu
          | cons a' as' =>
            cases bs with
            | nil => simp at hv
            | cons b' bs' =>
              simp at hu hv
              have h1 := List.chain'_cons.1 h₁
              have h2 := List.chain'_cons.1 h₂
              have e1 : u.isNum = false := by
                have := h1.1
                rw [hu] at this
                simp [altSeg, Seg.isNum] at this
                simpa using this
              have e2 : v.isNum = false := by
                have := h2.1
                rw [hv] at this
                simp [altSeg, Seg.isNum] at this
                simpa using this
              rw [e1, e2]

theorem dropWhile_append_single (p : Char → Bool) (a : Char) (h : p a = false) :
    ∀ xs : List Char, (xs ++ [a]).dropWhile p = xs.dropWhile p ++ [a]
  | [] => by simp [List.dropWhile_cons, h]
  | x :: xs => by
    rw [List.cons_append, List.dropWhile_cons, List.dropWhile_cons]
    by_cases hx : p x = true
    · rw [if_pos hx, if_pos hx, dropWhile_append_single p a h xs]
    · rw [if_neg hx, if_neg hx, List.cons_append]

/-- Stripping a name that starts with a capital P keeps the P in front. -/
theorem pyStrip_cons_P (l : List Char) :
    pyStrip ('P' :: l) = 'P' :: (l.reverse.dropWhile isPySpace).reverse := by
  unfold pyStrip
  rw [List.dropWhile_cons, if_neg (by decide), List.reverse_cons,
    dropWhile_append_single isPySpace 'P' (by decide) l.reverse,
    List.reverse_append]
  simp

theorem pMatch_data (s : String) (h : pMatch s = true) :
    ∃ c r, s.data = 'P' :: c :: r ∧ c.isDigit = true := by
  unfold pMatch at h
  rcases hds : s.data with _ | ⟨c0, _ | ⟨c1, r⟩⟩ <;> rw [hds] at h
  · simp at h
  · simp at h
  · simp only [Bool.and_eq_true, beq_iff_eq] at h
    exact ⟨c1, r, by rw [h.1], h.2⟩

/-- The key of any name matching the question pattern starts with a text
fragment. -/
theorem nsk_head_txt (s : String) (h : pMatch s = true) :
    ∃ x xs, natural_sort_key s = x :: xs ∧ x.isNum = false := by
  obtain ⟨c, r, hd, _⟩ := pMatch_data s h
  unfold natural_sort_key
  rw [hd, pyStrip_cons_P]
  have hne : List.foldl pushChar [] ('P' :: ((c :: r).reverse.dropWhile isPySpace).reverse) ≠ [] :=
    (foldl_pushChar_last (((c :: r).reverse.dropWhile isPySpace).reverse)
      (pushChar [] 'P') (pushChar_ne_nil [] 'P')).1
  have hne2 : groupKey ('P' :: ((c :: r).reverse.dropWhile isPySpace).reverse) ≠ [] := by
    unfold groupKey
    simpa using hne
  obtain ⟨x, xs, hxs⟩ := List.exists_cons_of_ne_nil hne2
  refine ⟨x, xs, hxs, ?_⟩
  have := groupKey_head_isNum 'P' _ x xs hxs
  simpa using this

/-! ## Claim C4: totality of key comparison -/

/-- C4 counterexample: on the pair P1 and 1P the Python tuple comparison of
natural sort keys aligns the text fragment P with the integer fragment 1 in
both directions and raises TypeError (modelled by none), so sorting a set
containing both crashes; the comparison is not well defined on every pair
of column names. -/
theorem C4_counterexample :
    pyCompareKey (natural_sort_key "P1") (natural_sort_key "1P") = none
    ∧ pyCompareKey (natural_sort_key "1P") (natural_sort_key "P1") = none := by
  decide

/-- C4 amended: Python comparison of natural sort keys is defined (and
agrees with the total comparison keyCmp used in the model) on every pair of
names matching the question pattern, which are the only names the planner
ever sorts with this key; hence that sort never crashes. -/
theorem C4_amended_pdigit_comparable (s t : String)
    (hs : pMatch s = true) (ht : pMatch t = true) :
    pyCompareKey (natural_sort_key s) (natural_sort_key t)
      = some (keyCmp (natural_sort_key s) (natural_sort_key t)) := by
  obtain ⟨x, xs, hx, hxn⟩ := nsk_head_txt s hs
  obtain ⟨y, ys, hy, hyn⟩ := nsk_head_txt t ht
  apply pyCompareKey_defined _ _ (groupKey_chain _) (groupKey_chain _)
  intro u v hu hv
  have hu2 : (natural_sort_key s).head? = some u := hu
  have hv2 : (natural_sort_key t).head? = some v := hv
  rw [hx] at hu2
  rw [hy] at hv2
  simp at hu2 hv2
  rw [← hu2, ← hv2, hxn, hyn]

/-- C4 amended witness at a concrete pair of question names. -/
theorem C4_amended_pdigit_comparable_witness :
    pyCompareKey (natural_sort_key "P1") (natural_sort_key "P2")
      = some (keyCmp (natural_sort_key "P1") (natural_sort_key "P2")) :=
  C4_amended_pdigit_comparable "P1" "P2" (by decide) (by decide)

/-! ## Python str of a nonnegative integer, and int of a digit string -/

/-- The decimal digit character of a value below ten. -/
def digitChar (d : Nat) : Char :=
  match d with
  | 0 => '0' | 1 => '1' | 2 => '2' | 3 => '3' | 4 => '4'
  | 5 => '5' | 6 => '6' | 7 => '7' | 8 => '8' | _ => '9'

/-- Fuel-driven decimal digit expansion, most significant digit first. -/
def natDigitsAux : Nat → Nat → List Char → List Char
  | 0, _, acc => acc
  | fuel + 1, n, acc =>
    if n < 10 then digitChar n :: acc
    else natDigitsAux fuel (n / 10) (digitChar (n % 10) :: acc)

/-- Python str(n) for a nonnegative integer: its decimal representation. -/
def natToStr (n : Nat) : String := ⟨natDigitsAux (n + 1) n []⟩

/-- Python int(s) restricted to plain decimal digit strings; any other
input (empty, signs, spaces, non-digits) is treated as a failure. -/
def pyNatOfStr (s : String) : Option Nat :=
  if s.data ≠ [] ∧ s.data.all Char.isDigit then
    some (s.data.foldl (fun a c => 10 * a + (c.toNat - 48)) 0)
  else none

theorem digitChar_isDigit (d : Nat) : (digitChar d).isDigit = true := by
  unfold digitChar
  split <;> decide

theorem digitChar_toNat (d : Nat) (h : d < 10) : (digitChar d).toNat - 48 = d := by
  interval_cases d <;> rfl

theorem natDigitsAux_acc (fuel : Nat) :
    ∀ (n : Nat) (acc : List Char), n < fuel →
      natDigitsAux fuel n acc = natDigitsAux fuel n [] ++ acc := by
  induction fuel with
  | zero => intro n acc h; omega
  | succ fuel ih =>
    intro n acc _
    by_cases h10 : n < 10
    · simp [natDigitsAux, h10]
    · have hlt : n / 10 < fuel := by omega
      simp only [natDigitsAux, if_neg h10]
      rw [ih (n / 10) (digitChar (n % 10) :: acc) hlt,
        ih (n / 10) [digitChar (n % 10)] hlt, List.append_assoc]
      rfl

theorem natDigitsAux_all_digits (fuel : Nat) :
    ∀ (n : Nat), n < fuel → ∀ c ∈ natDigitsAux fuel n [], c.isDigit = true := by
  induction fuel with
  | zero => intro n h; omega
  | succ fuel ih =>
    intro n hn c hc
    by_cases h10 : n < 10
    · simp [natDigitsAux, h10] at hc
      rw [hc]
      exact digitChar_isDigit n
    · have hlt : n / 10 < fuel := by omega
      simp only [natDigitsAux, if_neg h10] at hc
      rw [natDigitsAux_acc fuel (n / 10) _ hlt] at hc
      rcases List.mem_append.1 hc with h | h
      · exact ih (n / 10) hlt c h
      · simp at h
        rw [h]
        exact digitChar_isDigit _

theorem natDigitsAux_ne_nil (fuel n : Nat) (h : n < fuel) :
    natDigitsAux fuel n [] ≠ [] := by
  cases fuel with
  | zero => omega
  | succ fuel =>
    by_cases h10 : n < 10
    · simp [natDigitsAux, h10]
    · simp only [natDigitsAux, if_neg h10]
      rw [natDigitsAux_acc fuel (n / 10) _ (by omega)]
      simp

theorem natDigitsAux_foldl (fuel : Nat) :
    ∀ (n : Nat), n < fuel →
      (natDigitsAux fuel n []).foldl (fun a c => 10 * a + (c.toNat - 48)) 0 = n := by
  induction fuel with
  | zero => intro n h; omega
  | succ fuel ih =>
    intro n hn
    by_cases h10 : n < 10
    · simp [natDigitsAux, h10, digitChar_toNat n h10]
    · have hlt : n / 10 < fuel := by omega
      simp only [natDigitsAux, if_neg h10]
      rw [natDigitsAux_acc fuel (n / 10) _ hlt, List.foldl_append]
      rw [ih (n / 10) hlt]
      simp [digitChar_toNat (n % 10) (Nat.mod_lt n (by omega))]
      omega

/-- Round trip: Python int of Python str of a nonnegative integer. -/
theorem pyNatOfStr_natToStr (n : Nat) : pyNatOfStr (natToStr n) = some n := by
  unfold pyNatOfStr natToStr
  rw [if_pos]
  · rw [natDigitsAux_foldl (n + 1) n (Nat.lt_succ_self n)]
  · constructor
    · exact natDigitsAux_ne_nil (n + 1) n (Nat.lt_succ_self n)
    · rw [List.all_eq_true]
      intro c hc
      exact natDigitsAux_all_digits (n + 1) n (Nat.lt_succ_self n) c hc

/-- The decimal representation is never the text nan. -/
theorem natToStr_ne_nan (n : Nat) : natToStr n ≠ "nan" := by
  intro h
  have h2 : (natToStr n).data = "nan".data := by rw [h]
  have h3 : ∀ c ∈ (natToStr n).data, c.isDigit = true := by
    intro c hc
    exact natDigitsAux_all_digits (n + 1) n (Nat.lt_succ_self n) c hc
  rw [h2] at h3
  have := h3 'n' (by decide)
  simp at this

/-! ## Data model for the pipeline -/

/-- A Python value held in a cell of an extracted table. -/
inductive PyVal where
  | vStr (s : String)
  | vInt (n : Nat)
  | vNa
deriving DecidableEq

/-- Python str() of a cell value; str of a missing value is the text nan. -/
def pyStr : PyVal → String
  | .vStr s => s
  | .vInt n => natToStr n
  | .vNa => "nan"

/-- A DataFrame produced by the segmenter. -/
structure DTable where
  columns : List String
  rows : List (List PyVal)
deriving DecidableEq

/-- df.empty: no rows or no columns. -/
def DTable.isEmpty (t : DTable) : Bool := t.rows.isEmpty || t.columns.isEmpty

/-- The consolidated DataFrame read back from the backing store: every cell
is text or NULL. -/
structure ConsDF where
  columns : List String
  rows : List (List (Option String))
deriving DecidableEq

/-- One provenance manifest entry recorded by the segmenter. -/
structure ManifestEntry where
  file_name : String
  sheet_name : String
  table_index : Nat
  row_count : Nat
deriving DecidableEq

/-- An uploaded workbook, decoded by the external reader: a file name and a
sequence of named sheets, each a grid of optional text cells (none is a
blank cell, some s a cell whose str() rendering is s). -/
structure UploadedFile where
  name : String
  sheets : List (String × List (List (Option String)))
deriving DecidableEq

/-! ## Table segmentation (file_handler.py parse_excel_files, lines 5-117)

The per-file try/except of the original only matters for reader failures,
which cannot occur here because the input grids are already decoded, and
for the corner case of a header cell equal to a provenance column name
(where the original raises on insert and skips the rest of the file); that
corner case is excluded from the pipeline theorems by their duplicate-free
column hypotheses. -/

/-- A grid row is blank when every cell is missing. -/
def rowBlank (row : List (Option String)) : Bool := row.all (fun c => c.isNone)

/-- Cell j of a row; the reader pads ragged rows with missing cells. -/
def cellAt (row : List (Option String)) (j : Nat) : Option String := row.getD j none

/-- The number of columns the reader gives the sheet: its greatest row width. -/
def sheetWidth (rows : List (List (Option String))) : Nat :=
  (rows.map List.length).foldr max 0

/-- Clean one slice of a sheet: drop all-blank rows, then keep only the
column positions holding at least one value in the slice (dropna on both
axes, lines 62-63); returns the kept positions and the cleaned rows
restricted to them. -/
def cleanSlice (w : Nat) (slice : List (List (Option String))) :
    List Nat × List (List (Option String)) :=
  let rows1 := slice.filter (fun r => !(rowBlank r))
  let kept := (List.range w).filter (fun j => rows1.any (fun r => (cellAt r j).isSome))
  (kept, rows1.map (fun r => kept.map (fun j => cellAt r j)))

/-- Header promotion (lines 76-86): when the first row has a value, its
stringified cells become the column names, with Column_<positionalIndex>
substituted for any name that stringifies to the text nan, and the row is
removed; otherwise the positional integer labels remain. -/
def promoteHeader (keptCols : List Nat) (rows : List (List (Option String))) :
    List String × List (List (Option String)) :=
  match rows with
  | [] => (keptCols.map (fun j => natToStr j), [])
  | hr :: rest =>
    if hr.all (fun c => c.isNone) then
      (keptCols.map (fun j => natToStr j), rows)
    else
      let names0 := hr.map (fun c => match c with | some s => s | none => "nan")
      let names := names0.enum.map
        (fun p => if p.2 = "nan" then "Column_" ++ natToStr p.1 else p.2)
      (names, rest)

/-- Clean one slice and promote its header; none when the slice holds no
table (the skip cases of lines 66-67 and 89). -/
def processSlice (w : Nat) (slice : List (List (Option String))) :
    Option (List String × List (List (Option String))) :=
  let cleaned := cleanSlice w slice
  if cleaned.2.isEmpty || cleaned.1.isEmpty then none
  else
    let promoted := promoteHeader cleaned.1 cleaned.2
    if promoted.2.isEmpty then none
    else some promoted

/-- Materialise one emitted table with its provenance columns. -/
def makeTable (fname sname : String) (tidx : Nat)
    (promoted : List String × List (List (Option String))) : DTable :=
  { columns := traceability_cols ++ promoted.1,
    rows := promoted.2.map (fun r =>
      PyVal.vStr fname :: PyVal.vStr sname :: PyVal.vInt tidx
        :: r.map (fun c =>
            match c with
            | some s => PyVal.vStr s
            | none => PyVal.vNa)) }

/-- Walk the consecutive boundary pairs of one sheet (lines 49-105),
assigning 1-based table indices to the emitted tables. -/
def segmentPairs (fname sname : String) (blanks : List Nat)
    (rows : List (List (Option String))) (w : Nat) :
    List (Nat × Nat) → Nat → List DTable × List ManifestEntry
  | [], _ => ([], [])
  | (s, e) :: rest, tidx =>
    let s2 := if s ∈ blanks then s + 1 else s
    if s2 < e then
      match processSlice w ((rows.drop s2).take (e - s2)) with
      | none => segmentPairs fname sname blanks rows w rest tidx
      | some promoted =>
        let entry : ManifestEntry :=
          { file_name := fname, sheet_name := sname, table_index := tidx,
            row_count := promoted.2.length }
        let r := segmentPairs fname sname blanks rows w rest (tidx + 1)
        (makeTable fname sname tidx promoted :: r.1, entry :: r.2)
    else
      segmentPairs fname sname blanks rows w rest tidx

/-- Segment one sheet: blank rows are the boundaries; the table index
restarts at 1 (lines 30-46). -/
def segmentSheet (fname sname : String)
    (grid : List (List (Option String))) : List DTable × List ManifestEntry :=
  if grid.isEmpty then ([], [])
  else
    let n := grid.length
    let w := sheetWidth grid
    let blanks := (List.range n).filter (fun i => rowBlank (grid.getD i []))
    let bounds := 0 :: blanks ++ [n]
    segmentPairs fname sname blanks grid w (bounds.zip bounds.tail) 1

/-- Concatenate per-sheet and per-file results in order. -/
def joinPairs : List (List DTable × List ManifestEntry) →
    List DTable × List ManifestEntry
  | [] => ([], [])
  | p :: rest =>
    let r := joinPairs rest
    (p.1 ++ r.1, p.2 ++ r.2)

/-- All tables of one file, sheet by sheet. -/
def parseFile (f : UploadedFile) : List DTable × List ManifestEntry :=
  joinPairs (f.sheets.map (fun p => segmentSheet f.name p.1 p.2))

/-- parse_excel_files: every table of every sheet of every file, with the
provenance manifest, in discovery order. -/
def parse_excel_files (files : List UploadedFile) :
    List DTable × List ManifestEntry :=
  joinPairs (files.map parseFile)

/-! ## Consolidation (database_processor.py consolidate_data, lines 146-247) -/

/-- Normalisation of a stringified cell for storage: the text nan becomes
NULL (the replace call on line 223, exact value replacement). -/
def nanNorm (s : String) : Option String :=
  if s = "nan" then none else some s

/-- Strip the column names of a table (line 169). -/
def stripCols (t : DTable) : DTable :=
  { t with columns := t.columns.map pyStripStr }

/-- The retained tables with their generator positions: empty frames are
skipped, names are stripped (lines 164-175). -/
def discoverTables (tables : List DTable) : List (Nat × DTable) :=
  (tables.enum.filter (fun p => !(p.2.isEmpty))).map (fun p => (p.1, stripCols p.2))

/-- Set insertion in first-seen order: the model of the iteration order of
the growing Python set of column names. -/
def addNewCols (acc : List String) (cols : List String) : List String :=
  cols.foldl (fun a c => if a.contains c then a else a ++ [c]) acc

/-- The discovered column union, in first-seen order. -/
def allColumnsOf (tables : List DTable) : List String :=
  (discoverTables tables).foldl (fun acc p => addNewCols acc p.2.columns) []

/-- Align one row to the master schema: each master column present in the
table takes its stringified, nan-normalised value from the first column of
that name; absent columns are NULL (lines 219-226). -/
def alignRow (master cols : List String) (row : List PyVal) :
    List (Option String) :=
  master.map (fun c =>
    match cols.findIdx? (fun x => x == c) with
    | some i => nanNorm (pyStr (row.getD i .vNa))
    | none => none)

/-- Python repr of a list of plain strings, as rendered into the anomaly
line by the f-string. -/
def pyReprStrList (l : List String) : String :=
  "[" ++ String.intercalate ", " (l.map (fun s => "'" ++ s ++ "'")) ++ "]"

/-- The anomaly lines contributed by one table (lines 205-217). -/
def tableAnomaly (master : List String) (idx : Nat) (t : DTable) : List String :=
  let file_name :=
    match t.columns.findIdx? (fun x => x == "Nome do Arquivo de Origem") with
    | some i => pyStr ((t.rows.headD []).getD i .vNa)
    | none => "Unknown"
  let sheet_name :=
    match t.columns.findIdx? (fun x => x == "Nome da Planilha de Origem") with
    | some i => pyStr ((t.rows.headD []).getD i .vNa)
    | none => "Unknown"
  let tloc :=
    match t.columns.findIdx? (fun x => x == "Índice da Tabela na Planilha") with
    | some i => pyStr ((t.rows.headD []).getD i .vNa)
    | none => natToStr (idx + 1)
  let missing := master.filter (fun c => !(t.columns.contains c))
  let mlist := insertionSortB strLeB
    (missing.filter (fun c => !(traceability_cols.contains c)))
  if !missing.isEmpty && !mlist.isEmpty then
    [file_name ++ " -> " ++ sheet_name ++ " -> Tabela " ++ tloc ++ ": "
      ++ pyReprStrList mlist]
  else []

/-- consolidate_data.  The SQLite store is modelled by the list of inserted
rows in order; reading back with the explicit master column list returns
exactly those rows.  A retained table whose stripped column names collide
makes the original raise while assigning a duplicated label slice to a
single column, modelled as an error result. -/
def consolidate_data (tables : List DTable) : Except String (ConsDF × String) :=
  let discovered := discoverTables tables
  let all_columns := allColumnsOf tables
  if all_columns.isEmpty then
    .ok ({ columns := [], rows := [] }, "No data found in any tables")
  else
    let master := _build_intelligent_column_order all_columns
    if discovered.all (fun p => decide p.2.columns.Nodup) then
      let rowsOut :=
        (discovered.map (fun p => p.2.rows.map (alignRow master p.2.columns))).flatten
      let reports := (discovered.map (fun p => tableAnomaly master p.1 p.2)).flatten
      let report_text :=
        if reports.isEmpty then "Nenhuma anomalia detectada."
        else String.intercalate "\n" reports
      .ok ({ columns := master, rows := rowsOut }, report_text)
    else
      .error "duplicate column labels"

/-! ## Validation (validator.py) -/

/-- The programmatic validation summary record. -/
structure ValidationSummary where
  is_valid : Bool
  total_source_rows : Nat
  total_consolidated_rows : Nat
  difference : Nat
  total_tables : Nat
  validation_errors : Nat
  totals_match : Bool
deriving DecidableEq

/-- astype(str) on a cell read back from the store: NULL renders as the
text None, a text cell as itself. -/
def astypeStrCell : Option String → String
  | none => "None"
  | some s => s

/-- astype(int) on such a cell: NULL raises, text parses as a decimal
integer or raises; none models the raise. -/
def astypeIntCell : Option String → Option Nat
  | none => none
  | some s => pyNatOfStr s

/-- Select a column of the consolidated frame by name (first occurrence),
as a list of cells; none when the column is absent (a KeyError when
accessed). -/
def dfColumn (df : ConsDF) (name : String) : Option (List (Option String)) :=
  (df.columns.findIdx? (fun x => x == name)).map
    (fun i => df.rows.map (fun r => r.getD i none))

/-- The file-name column after the astype(str) correction. -/
def fileColVals (df : ConsDF) : Option (List String) :=
  (dfColumn df "Nome do Arquivo de Origem").map (fun l => l.map astypeStrCell)

/-- The sheet-name column after the astype(str) correction. -/
def sheetColVals (df : ConsDF) : Option (List String) :=
  (dfColumn df "Nome da Planilha de Origem").map (fun l => l.map astypeStrCell)

/-- Elementwise conversion of a whole column; none as soon as one cell
fails (the raise of astype(int)). -/
def mapMOpt (f : Option String → Option Nat) :
    List (Option String) → Option (List Nat)
  | [] => some []
  | c :: rest =>
    match f c, mapMOpt f rest with
    | some v, some vs => some (v :: vs)
    | _, _ => none

/-- The table-index column after the astype(int) correction: the outer none
is the raise of astype(int); some none means the column is absent so no
conversion was attempted; some (some vals) is the converted column. -/
def idxColVals (df : ConsDF) : Option (Option (List Nat)) :=
  match dfColumn df "Índice da Tabela na Planilha" with
  | none => some none
  | some l => (mapMOpt astypeIntCell l).map some

/-- The number of consolidated rows whose three provenance values match one
manifest entry (the mask of validator.py lines 84-90 and 191-196). -/
def countMatches (fv sv : List String) (iv : List Nat) (e : ManifestEntry) : Nat :=
  ((fv.zip sv).zip iv).countP
    (fun p => p.1.1 == e.file_name && p.1.2 == e.sheet_name && p.2 == e.table_index)

/-- The per-table mismatch count once the three corrected columns are in
hand. -/
def countErrorsGo (fv sv : List String) (iv : List Nat) :
    List ManifestEntry → Nat
  | [] => 0
  | e :: rest =>
    (if e.row_count == countMatches fv sv iv e then 0 else 1)
      + countErrorsGo fv sv iv rest

/-- The per-table count loop of get_validation_summary: none models the
KeyError raised when a provenance column is missing while the manifest is
nonempty (the loop body never runs on an empty manifest, so nothing is
accessed then). -/
def countErrors (df : ConsDF) (ivOpt : Option (List Nat))
    (manifest : List ManifestEntry) : Option Nat :=
  match manifest with
  | [] => some 0
  | _ :: _ =>
    match fileColVals df, sheetColVals df, ivOpt with
    | some fv, some sv, some iv => some (countErrorsGo fv sv iv manifest)
    | _, _, _ => none

/-- get_validation_summary (validator.py lines 158-209); none models a
raised exception (astype(int) failure or KeyError on missing provenance
columns). -/
def get_validation_summary (df : ConsDF) (manifest : List ManifestEntry) :
    Option ValidationSummary :=
  let total_source_rows := (manifest.map (fun e => e.row_count)).sum
  let total_consolidated_rows := df.rows.length
  let totals_match := total_source_rows == total_consolidated_rows
  match idxColVals df with
  | none => none
  | some ivOpt =>
    match countErrors df ivOpt manifest with
    | none => none
    | some validation_errors =>
      some { is_valid := totals_match && validation_errors == 0,
             total_source_rows := total_source_rows,
             total_consolidated_rows := total_consolidated_rows,
             difference := max total_source_rows total_consolidated_rows
               - min total_source_rows total_consolidated_rows,
             total_tables := manifest.length,
             validation_errors := validation_errors,
             totals_match := totals_match }

/-- The 60-character separator lines of the report. -/
def eqLine : String := ⟨List.replicate 60 '='⟩

def dashLine : String := ⟨List.replicate 60 '-'⟩

/-- Thousands-separated decimal rendering (the {:,} format). -/
def commaAux : List Char → Nat → List Char
  | [], _ => []
  | c :: rest, k =>
    if k == 3 then ',' :: c :: commaAux rest 1
    else c :: commaAux rest (k + 1)

def commaFmt (n : Nat) : String :=
  ⟨(commaAux (natToStr n).data.reverse 0).reverse⟩

/-- One status line of the detailed per-table section. -/
def detailLine (e : ManifestEntry) (actual : Nat) : String :=
  (if e.row_count == actual then "✅ OK" else "❌ ERRO") ++ " " ++ e.file_name
    ++ " → " ++ e.sheet_name ++ " → Tabela " ++ natToStr e.table_index ++ ": "
    ++ natToStr actual ++ "/" ++ natToStr e.row_count ++ " linhas"

/-- Record a mismatch (validator.py lines 96-104). -/
def errAdd (e : ManifestEntry) (actual : Nat)
    (errs : List (ManifestEntry × Nat)) : List (ManifestEntry × Nat) :=
  if e.row_count == actual then errs else (e, actual) :: errs

/-- The status lines and mismatch records once the three corrected columns
are in hand. -/
def detailLinesGo (fv sv : List String) (iv : List Nat) :
    List ManifestEntry → List String × List (ManifestEntry × Nat)
  | [] => ([], [])
  | e :: rest =>
    let pr := detailLinesGo fv sv iv rest
    (detailLine e (countMatches fv sv iv e) :: pr.1,
     errAdd e (countMatches fv sv iv e) pr.2)

/-- The detailed per-table section of validate_consolidation (lines 78-109):
the status lines in manifest order together with the mismatch records; none
models the KeyError on a missing provenance column (nothing is accessed on
an empty manifest). -/
def detailLines (df : ConsDF) (ivOpt : Option (List Nat))
    (manifest : List ManifestEntry) :
    Option (List String × List (ManifestEntry × Nat)) :=
  match manifest with
  | [] => some ([], [])
  | _ :: _ =>
    match fileColVals df, sheetColVals df, ivOpt with
    | some fv, some sv, some iv => some (detailLinesGo fv sv iv manifest)
    | _, _, _ => none

/-- The error detail block (lines 112-126). -/
def errorBlock (errs : List (ManifestEntry × Nat)) : List String :=
  if errs.isEmpty then []
  else
    ["", "🚨 DETALHES DOS ERROS ENCONTRADOS:", dashLine]
      ++ (errs.map (fun p =>
        ["❌ " ++ p.1.file_name ++ " → " ++ p.1.sheet_name ++ " → Tabela "
            ++ natToStr p.1.table_index ++ ":",
         "   Esperado: " ++ natToStr p.1.row_count ++ " linhas | Encontrado: "
            ++ natToStr p.2 ++ " linhas | Diferença: "
            ++ natToStr (max p.1.row_count p.2 - min p.1.row_count p.2) ++ " linhas",
         ""])).flatten

/-- validate_consolidation (validator.py lines 5-155); none models a raised
exception, otherwise the full textual report is returned. -/
def validate_consolidation (df : ConsDF) (manifest : List ManifestEntry) :
    Option String :=
  let total_source_rows := (manifest.map (fun e => e.row_count)).sum
  let total_consolidated_rows := df.rows.length
  let totals_match := total_source_rows == total_consolidated_rows
  match idxColVals df with
  | none => none
  | some ivOpt =>
    match detailLines df ivOpt manifest with
    | none => none
    | some pr =>
      let has_validation_errors := !pr.2.isEmpty
      let overall_success := totals_match && !has_validation_errors
      let summary_line :=
        if overall_success then
          "✅ RESULTADO: SUCESSO - Integridade validada com sucesso!"
        else
          "❌ RESULTADO: FALHA - Discrepância encontrada na consolidação!"
      let header := [eqLine, "🔍 RELATÓRIO DE VALIDAÇÃO DE INTEGRIDADE", eqLine,
        summary_line, "",
        "📊 CONTAGENS TOTAIS:",
        "   • Linhas nas tabelas de origem: " ++ commaFmt total_source_rows,
        "   • Linhas no arquivo consolidado: " ++ commaFmt total_consolidated_rows,
        "   • Diferença: "
          ++ commaFmt (max total_source_rows total_consolidated_rows
              - min total_source_rows total_consolidated_rows),
        "", "📋 VALIDAÇÃO DETALHADA POR TABELA:", dashLine]
      let closing :=
        [eqLine]
          ++ (if overall_success then
                ["🎉 VALIDAÇÃO CONCLUÍDA: Todos os dados foram preservados!",
                 "   A consolidação manteve 100% da integridade dos dados."]
              else
                ["⚠️  ATENÇÃO: Foram encontradas discrepâncias!"]
                  ++ (if !totals_match then ["   • Totais de linhas não coincidem."] else [])
                  ++ (if has_validation_errors then
                        ["   • " ++ natToStr pr.2.length
                          ++ " tabela(s) com contagem incorreta."]
                      else [])
                  ++ ["   Recomenda-se revisar os dados antes de prosseguir."])
          ++ [eqLine]
      some (String.intercalate "\n"
        (header ++ pr.1 ++ errorBlock pr.2 ++ closing))

/-! ## Claim C9: empty input -/

/-- C9: when the input yields zero tables, or only empty tables, so that
the discovered column union is empty, consolidation returns an empty frame
and the exact no-data sentinel text, as a normal result and not an error. -/
theorem C9_no_data_sentinel (tables : List DTable)
    (h : ∀ t ∈ tables, t.isEmpty = true) :
    consolidate_data tables
      = .ok ({ columns := [], rows := [] }, "No data found in any tables") := by
  have hd : discoverTables tables = [] := by
    unfold discoverTables
    rw [List.filter_eq_nil_iff.2 ?_]
    · rfl
    · intro p hp
      have hmem : p.2 ∈ tables := by
        have h1 : p.2 ∈ tables.enum.map Prod.snd := List.mem_map_of_mem Prod.snd hp
        rw [List.enum_map_snd] at h1
        exact h1
      simp [h p.2 hmem]
  have hall : allColumnsOf tables = [] := by
    unfold allColumnsOf
    rw [hd]
    rfl
  simp only [consolidate_data]
  rw [hall]
  rfl

/-- C9 witness: a run with one empty frame. -/
theorem C9_no_data_sentinel_witness :
    consolidate_data [{ columns := ["A"], rows := [] }]
      = .ok ({ columns := [], rows := [] }, "No data found in any tables") :=
  C9_no_data_sentinel [{ columns := ["A"], rows := [] }] (by decide)

/-! ## Claim C5: the literal text nan never reaches the unified table -/

theorem nanNorm_ne_nan (s : String) : nanNorm s ≠ some "nan" := by
  unfold nanNorm
  split
  · simp
  · intro h
    injection h with h2
    exact (by assumption : ¬ s = "nan") h2

theorem alignRow_cell_ne_nan (master cols : List String) (row : List PyVal) :
    ∀ cell ∈ alignRow master cols row, cell ≠ some "nan" := by
  intro cell hc
  unfold alignRow at hc
  rcases List.mem_map.1 hc with ⟨c, _, hcc⟩
  rw [← hcc]
  cases cols.findIdx? (fun x => x == c) with
  | none => simp
  | some i => exact nanNorm_ne_nan _

/-- C5: in every successful consolidation, every cell whose stringified
representation is the literal text nan has been normalised back to NULL
before storage, so no cell of the unified frame read back from the store
carries the text nan. -/
theorem C5_nan_normalised (tables : List DTable) (df : ConsDF) (rep : String)
    (h : consolidate_data tables = .ok (df, rep)) :
    ∀ row ∈ df.rows, ∀ cell ∈ row, cell ≠ some "nan" := by
  simp only [consolidate_data] at h
  split at h
  · injection h with h1
    injection h1 with h2 h3
    rw [← h2]
    intro row hrow
    simp at hrow
  · split at h
    · injection h with h1
      injection h1 with h2 h3
      rw [← h2]
      intro row hrow cell hcell
      simp only [List.mem_flatten, List.mem_map] at hrow
      rcases hrow with ⟨rows1, ⟨p, _, hp⟩, hrow1⟩
      rw [← hp] at hrow1
      rcases List.mem_map.1 hrow1 with ⟨r, _, hr⟩
      rw [← hr] at hcell
      exact alignRow_cell_ne_nan _ _ r cell hcell
    · cases h

/-- C5 witness: a run holding both a missing value and a literal nan text
cell; the corresponding stored cell of the read-back frame is NULL. -/
theorem C5_nan_normalised_witness : (none : Option String) ≠ some "nan" :=
  C5_nan_normalised
    [{ columns := ["Nome do Arquivo de Origem", "Nome da Planilha de Origem",
        "Índice da Tabela na Planilha", "A"],
       rows := [[.vStr "f", .vStr "s", .vInt 1, .vNa]] }]
    { columns := ["Nome do Arquivo de Origem", "Nome da Planilha de Origem",
        "Índice da Tabela na Planilha", "A"],
      rows := [[some "f", some "s", some "1", none]] }
    "Nenhuma anomalia detectada."
    (by rfl)
    [some "f", some "s", some "1", none] (by decide) none (by decide)

/-! ## Claim C6: column names of extracted tables -/

theorem columnPre_ne_nan (i : Nat) : ("Column_" ++ natToStr i) ≠ "nan" := by
  intro h
  have h2 : ("Column_" ++ natToStr i).data = "nan".data := by rw [h]
  rw [String.data_append] at h2
  have : ("Column_" : String).data = ['C', 'o', 'l', 'u', 'm', 'n', '_'] := rfl
  rw [this] at h2
  simp at h2

theorem promoteHeader_names (keptCols : List Nat)
    (rows : List (List (Option String))) :
    ∀ name ∈ (promoteHeader keptCols rows).1, name ≠ "nan" := by
  intro name hn
  unfold promoteHeader at hn
  split at hn
  · rcases List.mem_map.1 hn with ⟨j, _, hj⟩
    rw [← hj]
    exact natToStr_ne_nan j
  · split at hn
    · rcases List.mem_map.1 hn with ⟨j, _, hj⟩
      rw [← hj]
      exact natToStr_ne_nan j
    · rcases List.mem_map.1 hn with ⟨p, _, hp⟩
      rw [← hp]
      by_cases hc : p.2 = "nan"
      · rw [if_pos hc]
        exact columnPre_ne_nan p.1
      · rw [if_neg hc]
        exact hc

theorem traceability_ne_nan : ∀ c ∈ traceability_cols, c ≠ "nan" := by decide

/-- Structure of every table emitted for one sheet segment pair list. -/
theorem segmentPairs_columns (fname sname : String) (blanks : List Nat)
    (rows : List (List (Option String))) (w : Nat) :
    ∀ (prs : List (Nat × Nat)) (tidx : Nat) (t : DTable),
      t ∈ (segmentPairs fname sname blanks rows w prs tidx).1 →
      (∃ cs, t.columns = traceability_cols ++ cs)
        ∧ ∀ c ∈ t.columns, c ≠ "nan"
  | [], _, t => by simp [segmentPairs]
  | (s, e) :: rest, tidx, t => by
    intro ht
    simp only [segmentPairs] at ht
    generalize (if s ∈ blanks then s + 1 else s) = s2 at ht
    split at ht
    · split at ht
      · exact segmentPairs_columns fname sname blanks rows w rest tidx t ht
      · rcases List.mem_cons.1 ht with h | h
        · subst h
          rename_i promoted heq
          refine ⟨⟨_, rfl⟩, ?_⟩
          intro c hc
          rcases List.mem_append.1 hc with h | h
          · exact traceability_ne_nan c h
          · have hpn : ∀ name ∈ promoted.1, name ≠ "nan" := by
              have h2 := heq
              simp only [processSlice] at h2
              split at h2
              · cases h2
              · split at h2
                · cases h2
                · injection h2 with h3
                  rw [← h3]
                  exact promoteHeader_names _ _
            exact hpn c h
        · exact segmentPairs_columns fname sname blanks rows w rest (tidx + 1) t h
    · exact segmentPairs_columns fname sname blanks rows w rest tidx t ht

theorem joinPairs_mem (t : DTable) :
    ∀ l : List (List DTable × List ManifestEntry),
      t ∈ (joinPairs l).1 → ∃ p ∈ l, t ∈ p.1
  | [], h => by simp [joinPairs] at h
  | p :: rest, h => by
    simp only [joinPairs] at h
    rcases List.mem_append.1 h with h | h
    · exact ⟨p, List.mem_cons_self p rest, h⟩
    · rcases joinPairs_mem t rest h with ⟨q, hq, htq⟩
      exact ⟨q, List.mem_cons.2 (Or.inr hq), htq⟩

/-- Every table the segmenter emits, over any input. -/
theorem parse_columns (files : List UploadedFile) (t : DTable)
    (ht : t ∈ (parse_excel_files files).1) :
    (∃ cs, t.columns = traceability_cols ++ cs) ∧ ∀ c ∈ t.columns, c ≠ "nan" := by
  rcases joinPairs_mem t _ ht with ⟨p, hp, htp⟩
  rcases List.mem_map.1 hp with ⟨f, _, hf⟩
  rw [← hf] at htp
  rcases joinPairs_mem t _ htp with ⟨q, hq, htq⟩
  rcases List.mem_map.1 hq with ⟨sh, _, hsh⟩
  rw [← hsh] at htq
  unfold segmentSheet at htq
  split at htq
  · simp at htq
  · exact segmentPairs_columns f.name sh.1 _ _ _ _ 1 t htq

/-- C6 counterexample: a sheet whose header row repeats the untrimmed text
A-space yields a table whose column names are neither unique nor
whitespace trimmed. -/
theorem C6_counterexample :
    ((parse_excel_files
        [{ name := "f.xlsx",
           sheets := [("S", [[some "A ", some "A "], [some "1", some "2"]])] }]).1.map
      (fun t => t.columns))
      = [["Nome do Arquivo de Origem", "Nome da Planilha de Origem",
          "Índice da Tabela na Planilha", "A ", "A "]]
    ∧ ¬ (["Nome do Arquivo de Origem", "Nome da Planilha de Origem",
          "Índice da Tabela na Planilha", "A ", "A "].Nodup
         ∧ ∀ c ∈ ["Nome do Arquivo de Origem", "Nome da Planilha de Origem",
             "Índice da Tabela na Planilha", "A ", "A "], pyStripStr c = c) := by
  constructor
  · rfl
  · intro hcl
    have := hcl.1
    simp at this

/-- C6 amended: an emitted table always starts with the three provenance
columns in fixed order, followed by the header-derived names in which any
blank (or literal nan) header cell was synthesised away, so no column name
is ever the literal text nan; but names are not trimmed at this stage
(trimming happens later in consolidation) and duplicates are possible. -/
theorem C6_amended_columns (files : List UploadedFile) (t : DTable)
    (ht : t ∈ (parse_excel_files files).1) :
    (∃ cs, t.columns = traceability_cols ++ cs) ∧ ∀ c ∈ t.columns, c ≠ "nan" :=
  parse_columns files t ht

/-- C6 amended witness at a concrete file. -/
theorem C6_amended_columns_witness :
    (∃ cs,
      (DTable.mk ["Nome do Arquivo de Origem", "Nome da Planilha de Origem",
          "Índice da Tabela na Planilha", "A ", "A "]
        [[.vStr "f.xlsx", .vStr "S", .vInt 1, .vStr "1", .vStr "2"]]).columns
        = traceability_cols ++ cs)
    ∧ ∀ c ∈ (DTable.mk ["Nome do Arquivo de Origem", "Nome da Planilha de Origem",
          "Índice da Tabela na Planilha", "A ", "A "]
        [[.vStr "f.xlsx", .vStr "S", .vInt 1, .vStr "1", .vStr "2"]]).columns,
        c ≠ "nan" :=
  C6_amended_columns
    [{ name := "f.xlsx",
       sheets := [("S", [[some "A ", some "A "], [some "1", some "2"]])] }]
    (DTable.mk ["Nome do Arquivo de Origem", "Nome da Planilha de Origem",
        "Índice da Tabela na Planilha", "A ", "A "]
      [[.vStr "f.xlsx", .vStr "S", .vInt 1, .vStr "1", .vStr "2"]])
    (by decide)

/-! ## Claim C8: the validator and exceptions -/

/-- C8 counterexample: on a frame lacking the three provenance columns and
a nonempty manifest, validate_consolidation raises a KeyError while
building the mask (validator.py lines 85-89), modelled by none, instead of
returning a report. -/
theorem C8_counterexample :
    validate_consolidation { columns := ["A"], rows := [] }
      [{ file_name := "f", sheet_name := "s", table_index := 1, row_count := 5 }]
      = none := by rfl

theorem mapMOpt_isSome (f : Option String → Option Nat) :
    ∀ l : List (Option String), (∀ c ∈ l, (f c).isSome = true) →
      (mapMOpt f l).isSome = true
  | [], _ => rfl
  | c :: rest, h => by
    simp only [mapMOpt]
    have hc := h c (List.mem_cons_self c rest)
    have hrest := mapMOpt_isSome f rest (fun x hx => h x (List.mem_cons.2 (Or.inr hx)))
    cases hfc : f c with
    | none => rw [hfc] at hc; simp at hc
    | some v =>
      cases hrec : mapMOpt f rest with
      | none => rw [hrec] at hrest; simp at hrest
      | some vs => simp

theorem detailLines_isSome (df : ConsDF) (fv sv : List String) (iv : List Nat)
    (hf : fileColVals df = some fv) (hs : sheetColVals df = some sv) :
    ∀ manifest : List ManifestEntry,
      (detailLines df (some iv) manifest).isSome = true
  | [] => rfl
  | e :: rest => by
    simp [detailLines, hf, hs]

theorem findIdx?_isSome_of_mem (l : List String) (name : String) (h : name ∈ l) :
    (l.findIdx? (fun x => x == name)).isSome = true := by
  rw [List.findIdx?_isSome, List.any_eq_true]
  exact ⟨name, h, by simp⟩

/-- C8 amended: validate_consolidation returns a report whenever the
table-index column, if present, holds only decimal text cells, and the
file and sheet provenance columns are present whenever the manifest is
nonempty; this covers every row-count mismatch and the empty-manifest
cases, but a missing provenance column with a nonempty manifest, or an
unparsable table-index cell, makes the original raise. -/
theorem C8_amended_returns_report (df : ConsDF) (manifest : List ManifestEntry)
    (hidx : ∀ cell ∈ (dfColumn df "Índice da Tabela na Planilha").getD [],
      (astypeIntCell cell).isSome = true)
    (hcols : manifest ≠ [] →
      ("Nome do Arquivo de Origem" ∈ df.columns
        ∧ "Nome da Planilha de Origem" ∈ df.columns
        ∧ "Índice da Tabela na Planilha" ∈ df.columns)) :
    (validate_consolidation df manifest).isSome = true := by
  have hiv : (idxColVals df).isSome = true := by
    unfold idxColVals
    cases hcol : dfColumn df "Índice da Tabela na Planilha" with
    | none => rfl
    | some l =>
      have hms : (mapMOpt astypeIntCell l).isSome = true := by
        apply mapMOpt_isSome
        intro c hc
        apply hidx
        rw [hcol]
        exact hc
      cases hm : mapMOpt astypeIntCell l with
      | none => rw [hm] at hms; simp at hms
      | some vs => simp [hm]
  simp only [validate_consolidation]
  cases hivc : idxColVals df with
  | none => rw [hivc] at hiv; simp at hiv
  | some ivOpt =>
    have hdl : (detailLines df ivOpt manifest).isSome = true := by
      cases manifest with
      | nil => cases ivOpt <;> rfl
      | cons e rest =>
        rcases hcols (by simp) with ⟨hcf, hcs, hci⟩
        have hfv : ∃ fv, fileColVals df = some fv := by
          unfold fileColVals dfColumn
          have := findIdx?_isSome_of_mem df.columns "Nome do Arquivo de Origem" hcf
          cases hf : df.columns.findIdx? (fun x => x == "Nome do Arquivo de Origem") with
          | none => rw [hf] at this; simp at this
          | some i => exact ⟨_, rfl⟩
        have hsv : ∃ sv, sheetColVals df = some sv := by
          unfold sheetColVals dfColumn
          have := findIdx?_isSome_of_mem df.columns "Nome da Planilha de Origem" hcs
          cases hf : df.columns.findIdx? (fun x => x == "Nome da Planilha de Origem") with
          | none => rw [hf] at this; simp at this
          | some i => exact ⟨_, rfl⟩
        have hivv : ∃ iv, ivOpt = some iv := by
          have hsome : (dfColumn df "Índice da Tabela na Planilha").isSome = true := by
            unfold dfColumn
            have := findIdx?_isSome_of_mem df.columns "Índice da Tabela na Planilha" hci
            cases hf : df.columns.findIdx? (fun x => x == "Índice da Tabela na Planilha") with
            | none => rw [hf] at this; simp at this
            | some i => simp
          unfold idxColVals at hivc
          cases hcol : dfColumn df "Índice da Tabela na Planilha" with
          | none => rw [hcol] at hsome; simp at hsome
          | some l =>
            simp only [hcol] at hivc
            cases hm : mapMOpt astypeIntCell l with
            | none => rw [hm] at hivc; simp at hivc
            | some vs =>
              rw [hm] at hivc
              simp at hivc
              exact ⟨vs, hivc.symm⟩
        rcases hfv with ⟨fv, hfv⟩
        rcases hsv with ⟨sv, hsv⟩
        rcases hivv with ⟨iv, hivv⟩
        rw [hivv]
        exact detailLines_isSome df fv sv iv hfv hsv (e :: rest)
    cases hdlc : detailLines df ivOpt manifest with
    | none => rw [hdlc] at hdl; simp at hdl
    | some pr => simp [hdlc]

/-- C8 amended witness: provenance columns present, manifest expecting five
rows against an empty frame; a full report is produced, no exception. -/
theorem C8_amended_returns_report_witness :
    (validate_consolidation
      { columns := ["Nome do Arquivo de Origem", "Nome da Planilha de Origem",
          "Índice da Tabela na Planilha"], rows := [] }
      [{ file_name := "f", sheet_name := "s", table_index := 1, row_count := 5 }]).isSome
      = true :=
  C8_amended_returns_report
    { columns := ["Nome do Arquivo de Origem", "Nome da Planilha de Origem",
        "Índice da Tabela na Planilha"], rows := [] }
    [{ file_name := "f", sheet_name := "s", table_index := 1, row_count := 5 }]
    (by decide) (by decide)

/-! ## Claim C2: row-count conservation through the pipeline -/

/-- What the segmenter guarantees for each emitted table and its manifest
entry: the row count matches, the table is nonempty, the provenance columns
lead, and every row starts with the provenance values of the entry. -/
def TableAgrees (t : DTable) (e : ManifestEntry) : Prop :=
  t.rows.length = e.row_count
  ∧ t.rows ≠ []
  ∧ (∃ cs, t.columns = traceability_cols ++ cs)
  ∧ ∀ r ∈ t.rows, ∃ rrest,
      r = PyVal.vStr e.file_name :: PyVal.vStr e.sheet_name
        :: PyVal.vInt e.table_index :: rrest

theorem forall₂_append_my {α β : Type} {R : α → β → Prop} :
    ∀ {l₁ u₁ : List α} {l₂ u₂ : List β}, List.Forall₂ R l₁ l₂ →
      List.Forall₂ R u₁ u₂ → List.Forall₂ R (l₁ ++ u₁) (l₂ ++ u₂) := by
  intro l₁ u₁ l₂ u₂ h1 h2
  induction h1 with
  | nil => exact h2
  | cons hab _ ih => exact List.Forall₂.cons hab ih

theorem processSlice_rows_ne_nil (w : Nat) (slice : List (List (Option String)))
    (promoted : List String × List (List (Option String)))
    (h : processSlice w slice = some promoted) : promoted.2 ≠ [] := by
  simp only [processSlice] at h
  split at h
  · cases h
  · split at h
    · cases h
    · injection h with h2
      rw [← h2]
      intro hnil
      rename_i hne
      rw [hnil] at hne
      simp at hne

theorem segmentPairs_agrees (fname sname : String) (blanks : List Nat)
    (rows : List (List (Option String))) (w : Nat) :
    ∀ (prs : List (Nat × Nat)) (tidx : Nat),
      List.Forall₂ TableAgrees
        (segmentPairs fname sname blanks rows w prs tidx).1
        (segmentPairs fname sname blanks rows w prs tidx).2
  | [], _ => by
    simp only [segmentPairs]
    exact List.Forall₂.nil
  | (s, e) :: rest, tidx => by
    simp only [segmentPairs]
    generalize (if s ∈ blanks then s + 1 else s) = s2
    split
    · cases hps : processSlice w ((rows.drop s2).take (e - s2)) with
      | none => exact segmentPairs_agrees fname sname blanks rows w rest tidx
      | some promoted =>
        refine List.Forall₂.cons ?_
          (segmentPairs_agrees fname sname blanks rows w rest (tidx + 1))
        refine ⟨by simp [makeTable], ?_, ⟨promoted.1, rfl⟩, ?_⟩
        · simp only [makeTable]
          intro hnil
          exact processSlice_rows_ne_nil w _ promoted hps (List.map_eq_nil_iff.1 hnil)
        · intro r hr
          simp only [makeTable, List.mem_map] at hr
          rcases hr with ⟨r0, _, hr0⟩
          exact ⟨_, hr0.symm⟩
    · exact segmentPairs_agrees fname sname blanks rows w rest tidx

theorem joinPairs_agrees :
    ∀ l : List (List DTable × List ManifestEntry),
      (∀ p ∈ l, List.Forall₂ TableAgrees p.1 p.2) →
      List.Forall₂ TableAgrees (joinPairs l).1 (joinPairs l).2
  | [], _ => List.Forall₂.nil
  | p :: rest, h => by
    simp only [joinPairs]
    exact forall₂_append_my (h p (List.mem_cons_self p rest))
      (joinPairs_agrees rest (fun q hq => h q (List.mem_cons.2 (Or.inr hq))))

/-- The segmenter output: tables and manifest entries agree one for one. -/
theorem parse_agrees (files : List UploadedFile) :
    List.Forall₂ TableAgrees (parse_excel_files files).1 (parse_excel_files files).2 := by
  apply joinPairs_agrees
  intro p hp
  rcases List.mem_map.1 hp with ⟨f, _, hf⟩
  rw [← hf]
  apply joinPairs_agrees
  intro q hq
  rcases List.mem_map.1 hq with ⟨sh, _, hsh⟩
  rw [← hsh]
  unfold segmentSheet
  split
  · exact List.Forall₂.nil
  · exact segmentPairs_agrees f.name sh.1 _ _ _ _ 1

theorem countP_flatten {α : Type} (p : α → Bool) :
    ∀ L : List (List α), (L.flatten).countP p = (L.map (fun l => l.countP p)).sum
  | [] => rfl
  | l :: L => by
    simp only [List.flatten_cons, List.countP_append, List.map_cons, List.sum_cons,
      countP_flatten p L]

theorem mapMOpt_eq_map (f : Option String → Option Nat) :
    ∀ l : List (Option String), (∀ x ∈ l, (f x).isSome = true) →
      mapMOpt f l = some (l.map (fun x => (f x).getD 0))
  | [], _ => rfl
  | c :: rest, h => by
    simp only [mapMOpt]
    have hc := h c (List.mem_cons_self c rest)
    rw [mapMOpt_eq_map f rest (fun x hx => h x (List.mem_cons.2 (Or.inr hx)))]
    cases hfc : f c with
    | none => rw [hfc] at hc; simp at hc
    | some v => simp [hfc]

/-- The matching predicate of the mask, on the fused triple of one row. -/
def rowTriple (r : List (Option String)) : String × String × Nat :=
  (astypeStrCell (r.getD 0 none), astypeStrCell (r.getD 1 none),
   (astypeIntCell (r.getD 2 none)).getD 0)

/-- The conditions under which one block of consolidated rows realises one
manifest entry. -/
def BlockAgrees (block : List (List (Option String))) (e : ManifestEntry) : Prop :=
  block.length = e.row_count
  ∧ ∀ r ∈ block,
      r.getD 0 none = some e.file_name
      ∧ r.getD 1 none = some e.sheet_name
      ∧ r.getD 2 none = some (natToStr e.table_index)

/-- Distinctness of provenance triples. -/
def TripleNe (e e2 : ManifestEntry) : Prop :=
  (e.file_name, e.sheet_name, e.table_index)
    ≠ (e2.file_name, e2.sheet_name, e2.table_index)

theorem blockAgrees_triple {block : List (List (Option String))}
    {e : ManifestEntry} (h : BlockAgrees block e) :
    ∀ r ∈ block, rowTriple r = (e.file_name, e.sheet_name, e.table_index) := by
  intro r hr
  rcases h.2 r hr with ⟨h0, h1, h2⟩
  unfold rowTriple
  rw [h0, h1, h2]
  simp only [astypeStrCell, astypeIntCell, pyNatOfStr_natToStr]
  rfl

theorem tripleEq_beq (x y : String × String × Nat) :
    (x.1 == y.1 && x.2.1 == y.2.1 && x.2.2 == y.2.2) = true ↔ x = y := by
  rcases x with ⟨x1, x2, x3⟩
  rcases y with ⟨y1, y2, y3⟩
  simp [Bool.and_eq_true, and_assoc]

/-- The count a manifest entry receives over blocks that realise a
triple-distinct manifest containing it is exactly its expected row count. -/
theorem countMatches_of_blocks (e : ManifestEntry) :
    ∀ (blocks : List (List (List (Option String)))) (manifest : List ManifestEntry),
      List.Forall₂ BlockAgrees blocks manifest →
      e ∈ manifest →
      manifest.Pairwise TripleNe →
      ((blocks.map (fun b => b.countP
          (fun r => (rowTriple r).1 == e.file_name
            && (rowTriple r).2.1 == e.sheet_name
            && (rowTriple r).2.2 == e.table_index))).sum) = e.row_count := by
  intro blocks manifest hfa hmem hdist
  induction hfa with
  | nil => simp at hmem
  | cons hab hrest ih =>
    rename_i b e2 bs ms
    simp only [List.map_cons, List.sum_cons]
    rcases List.mem_cons.1 hmem with hh | hh
    · subst hh
      have hcount : b.countP (fun r => (rowTriple r).1 == e.file_name
          && (rowTriple r).2.1 == e.sheet_name
          && (rowTriple r).2.2 == e.table_index) = b.length := by
        rw [List.countP_eq_length]
        intro r hr
        rw [blockAgrees_triple hab r hr]
        simp
      have hzero : ((bs.map (fun b => b.countP
          (fun r => (rowTriple r).1 == e.file_name
            && (rowTriple r).2.1 == e.sheet_name
            && (rowTriple r).2.2 == e.table_index))).sum) = 0 := by
        have hne : ∀ x ∈ ms, TripleNe e x := (List.pairwise_cons.1 hdist).1
        clear ih hdist hmem
        induction hrest with
        | nil => rfl
        | cons hab2 hrest2 ih2 =>
          rename_i b2 e3 bs2 ms2
          simp only [List.map_cons, List.sum_cons]
          rw [ih2 (fun x hx => hne x (List.mem_cons.2 (Or.inr hx)))]
          have h0 : b2.countP (fun r => (rowTriple r).1 == e.file_name
              && (rowTriple r).2.1 == e.sheet_name
              && (rowTriple r).2.2 == e.table_index) = 0 := by
            rw [List.countP_eq_zero]
            intro r hr
            rw [blockAgrees_triple hab2 r hr]
            intro hp
            exact (hne e3 (List.mem_cons_self e3 ms2)).symm ((tripleEq_beq _ _).1 hp)
          rw [h0]
      rw [hcount, hzero, hab.1, Nat.add_zero]
    · have hne : TripleNe e2 e := (List.pairwise_cons.1 hdist).1 e hh
      have h0 : b.countP (fun r => (rowTriple r).1 == e.file_name
          && (rowTriple r).2.1 == e.sheet_name
          && (rowTriple r).2.2 == e.table_index) = 0 := by
        rw [List.countP_eq_zero]
        intro r hr
        rw [blockAgrees_triple hab r hr]
        intro hp
        exact hne ((tripleEq_beq _ _).1 hp)
      rw [h0, ih hh (List.pairwise_cons.1 hdist).2, Nat.zero_add]

theorem mem_addNewCols : ∀ (cols acc : List String) (x : String),
    x ∈ addNewCols acc cols ↔ x ∈ acc ∨ x ∈ cols
  | [], acc, x => by simp [addNewCols]
  | c :: cs, acc, x => by
    show x ∈ addNewCols (if acc.contains c then acc else acc ++ [c]) cs
      ↔ x ∈ acc ∨ x ∈ c :: cs
    rw [mem_addNewCols cs _ x]
    split
    · rename_i hco
      have hc2 : c ∈ acc := (contains_iff_mem acc c).1 hco
      simp only [List.mem_cons]
      constructor
      · rintro (h | h)
        · exact Or.inl h
        · exact Or.inr (Or.inr h)
      · rintro (h | rfl | h)
        · exact Or.inl h
        · exact Or.inl hc2
        · exact Or.inr h
    · simp only [List.mem_append, List.mem_singleton, List.mem_cons]
      tauto

theorem addNewCols_nodup : ∀ (cols acc : List String), acc.Nodup →
    (addNewCols acc cols).Nodup
  | [], _, h => h
  | c :: cs, acc, h => by
    show (addNewCols (if acc.contains c then acc else acc ++ [c]) cs).Nodup
    apply addNewCols_nodup
    split
    · exact h
    · rename_i hco
      have hcn : (c :: acc).Nodup :=
        List.nodup_cons.2 ⟨fun hm => hco ((contains_iff_mem acc c).2 hm), h⟩
      exact ((List.perm_append_singleton c acc).nodup_iff).2 hcn

theorem nodup_foldl_addNew : ∀ (l : List (Nat × DTable)) (acc : List String),
    acc.Nodup → (l.foldl (fun acc p => addNewCols acc p.2.columns) acc).Nodup
  | [], _, h => h
  | p :: rest, acc, h =>
    nodup_foldl_addNew rest _ (addNewCols_nodup p.2.columns acc h)

theorem mem_foldl_addNew_acc : ∀ (l : List (Nat × DTable)) (acc : List String)
    (x : String), x ∈ acc →
    x ∈ l.foldl (fun acc p => addNewCols acc p.2.columns) acc
  | [], _, _, h => h
  | p :: rest, acc, x, h =>
    mem_foldl_addNew_acc rest _ x ((mem_addNewCols p.2.columns acc x).2 (Or.inl h))

theorem mem_foldl_addNew : ∀ (l : List (Nat × DTable)) (acc : List String)
    (p : Nat × DTable), p ∈ l → ∀ x ∈ p.2.columns,
    x ∈ l.foldl (fun acc p => addNewCols acc p.2.columns) acc
  | q :: rest, acc, p, hp, x, hx => by
    simp only [List.foldl_cons]
    rcases List.mem_cons.1 hp with rfl | h2
    · exact mem_foldl_addNew_acc rest _ x
        ((mem_addNewCols p.2.columns acc x).2 (Or.inr hx))
    · exact mem_foldl_addNew rest _ p h2 x hx

theorem allColumnsOf_nodup (tables : List DTable) : (allColumnsOf tables).Nodup :=
  nodup_foldl_addNew _ _ List.nodup_nil

theorem mem_allColumnsOf (tables : List DTable) (p : Nat × DTable)
    (hp : p ∈ discoverTables tables) (x : String) (hx : x ∈ p.2.columns) :
    x ∈ allColumnsOf tables :=
  mem_foldl_addNew _ _ p hp x hx

theorem discoverTables_cons_head (t0 : DTable) (ts : List DTable)
    (h : t0.isEmpty = false) :
    ∃ l, discoverTables (t0 :: ts) = (0, stripCols t0) :: l := by
  unfold discoverTables
  rw [List.enum_cons]
  simp only [List.filter_cons, h, Bool.not_false, if_true, List.map_cons]
  exact ⟨_, rfl⟩

theorem discoverTables_snd (tables : List DTable)
    (h : ∀ t ∈ tables, t.isEmpty = false) :
    (discoverTables tables).map (fun p => p.2) = tables.map stripCols := by
  unfold discoverTables
  rw [List.map_map]
  have hfil : tables.enum.filter (fun p => !(p.2.isEmpty)) = tables.enum := by
    rw [List.filter_eq_self]
    intro p hp
    have h2 : p.2 ∈ tables := by
      rw [← List.enum_map_snd tables]
      exact List.mem_map_of_mem Prod.snd hp
    rw [h p.2 h2]
    rfl
  rw [hfil]
  rw [show ((fun (p : Nat × DTable) => p.2) ∘ fun p => (p.1, stripCols p.2))
      = stripCols ∘ Prod.snd from rfl]
  rw [← List.map_map, List.enum_map_snd]

theorem strip_trace : traceability_cols.map pyStripStr = traceability_cols := by
  decide

theorem tableAgrees_ne_empty (t : DTable) (e : ManifestEntry)
    (h : TableAgrees t e) : t.isEmpty = false := by
  rcases h with ⟨-, hrows, ⟨cs, hcols⟩, -⟩
  unfold DTable.isEmpty
  cases htr : t.rows with
  | nil => exact absurd htr hrows
  | cons a l => rw [hcols]; rfl

theorem forall₂_mem_left_my {α β : Type} {R : α → β → Prop} :
    ∀ {l : List α} {u : List β}, List.Forall₂ R l u → ∀ a ∈ l, ∃ b ∈ u, R a b := by
  intro l u h
  induction h with
  | nil => intro a ha; cases ha
  | cons hab _ ih =>
    intro a ha
    rcases List.mem_cons.1 ha with rfl | h2
    · exact ⟨_, List.mem_cons_self _ _, hab⟩
    · rcases ih a h2 with ⟨b, hb, hr⟩
      exact ⟨b, List.mem_cons.2 (Or.inr hb), hr⟩

theorem flatten_length_of_blocks :
    ∀ {blocks : List (List (List (Option String)))} {manifest : List ManifestEntry},
      List.Forall₂ BlockAgrees blocks manifest →
      blocks.flatten.length = (manifest.map (fun e => e.row_count)).sum := by
  intro blocks manifest h
  induction h with
  | nil => rfl
  | cons hab _ ih =>
    simp only [List.flatten_cons, List.length_append, List.map_cons, List.sum_cons,
      ih, hab.1]

theorem countErrorsGo_zero (fv sv : List String) (iv : List Nat) :
    ∀ manifest : List ManifestEntry,
      (∀ e ∈ manifest, countMatches fv sv iv e = e.row_count) →
      countErrorsGo fv sv iv manifest = 0
  | [], _ => rfl
  | e :: rest, h => by
    simp [countErrorsGo, h e (List.mem_cons_self e rest),
      countErrorsGo_zero fv sv iv rest (fun x hx => h x (List.mem_cons.2 (Or.inr hx)))]

theorem findIdx_file (rest : List String) :
    ("Nome do Arquivo de Origem" :: rest).findIdx?
      (fun x => x == "Nome do Arquivo de Origem") = some 0 := by
  simp [List.findIdx?_cons]

theorem findIdx_sheet (rest : List String) :
    ("Nome do Arquivo de Origem" :: "Nome da Planilha de Origem" :: rest).findIdx?
      (fun x => x == "Nome da Planilha de Origem") = some 1 := by
  have h1 : ("Nome do Arquivo de Origem" == "Nome da Planilha de Origem") = false := by
    decide
  simp [List.findIdx?_cons, h1]

theorem findIdx_tidx (rest : List String) :
    ("Nome do Arquivo de Origem" :: "Nome da Planilha de Origem"
      :: "Índice da Tabela na Planilha" :: rest).findIdx?
      (fun x => x == "Índice da Tabela na Planilha") = some 2 := by
  have h1 : ("Nome do Arquivo de Origem" == "Índice da Tabela na Planilha") = false := by
    decide
  have h2 : ("Nome da Planilha de Origem" == "Índice da Tabela na Planilha") = false := by
    decide
  simp [List.findIdx?_cons, h1, h2]

theorem alignRow_getD (mrest crest : List String) (e : ManifestEntry)
    (rrest : List PyVal) (hf : e.file_name ≠ "nan") (hs : e.sheet_name ≠ "nan") :
    (alignRow ("Nome do Arquivo de Origem" :: "Nome da Planilha de Origem"
        :: "Índice da Tabela na Planilha" :: mrest)
      ("Nome do Arquivo de Origem" :: "Nome da Planilha de Origem"
        :: "Índice da Tabela na Planilha" :: crest)
      (PyVal.vStr e.file_name :: PyVal.vStr e.sheet_name
        :: PyVal.vInt e.table_index :: rrest)).getD 0 none = some e.file_name
    ∧ (alignRow ("Nome do Arquivo de Origem" :: "Nome da Planilha de Origem"
        :: "Índice da Tabela na Planilha" :: mrest)
      ("Nome do Arquivo de Origem" :: "Nome da Planilha de Origem"
        :: "Índice da Tabela na Planilha" :: crest)
      (PyVal.vStr e.file_name :: PyVal.vStr e.sheet_name
        :: PyVal.vInt e.table_index :: rrest)).getD 1 none = some e.sheet_name
    ∧ (alignRow ("Nome do Arquivo de Origem" :: "Nome da Planilha de Origem"
        :: "Índice da Tabela na Planilha" :: mrest)
      ("Nome do Arquivo de Origem" :: "Nome da Planilha de Origem"
        :: "Índice da Tabela na Planilha" :: crest)
      (PyVal.vStr e.file_name :: PyVal.vStr e.sheet_name
        :: PyVal.vInt e.table_index :: rrest)).getD 2 none
        = some (natToStr e.table_index) := by
  unfold alignRow
  simp only [List.map_cons]
  rw [findIdx_file, findIdx_sheet, findIdx_tidx]
  refine ⟨?_, ?_, ?_⟩ <;>
    simp [nanNorm, pyStr, hf, hs, natToStr_ne_nan, List.getD_cons_zero,
      List.getD_cons_succ]

theorem dfColumn_trace (df : ConsDF) (mrest : List String)
    (hcols : df.columns = "Nome do Arquivo de Origem" :: "Nome da Planilha de Origem"
        :: "Índice da Tabela na Planilha" :: mrest) :
    fileColVals df = some (df.rows.map (fun r => astypeStrCell (r.getD 0 none)))
    ∧ sheetColVals df = some (df.rows.map (fun r => astypeStrCell (r.getD 1 none)))
    ∧ dfColumn df "Índice da Tabela na Planilha"
        = some (df.rows.map (fun r => r.getD 2 none)) := by
  unfold fileColVals sheetColVals dfColumn
  rw [hcols, findIdx_file, findIdx_sheet, findIdx_tidx]
  refine ⟨?_, ?_, ?_⟩ <;> simp [List.map_map]

theorem idxColVals_eq (df : ConsDF) (mrest : List String)
    (hcols : df.columns = "Nome do Arquivo de Origem" :: "Nome da Planilha de Origem"
        :: "Índice da Tabela na Planilha" :: mrest)
    (hall : ∀ r ∈ df.rows, (astypeIntCell (r.getD 2 none)).isSome = true) :
    idxColVals df
      = some (some (df.rows.map (fun r => (astypeIntCell (r.getD 2 none)).getD 0))) := by
  have hd := (dfColumn_trace df mrest hcols).2.2
  simp only [idxColVals, hd]
  rw [mapMOpt_eq_map astypeIntCell _ (fun x hx => by
    rcases List.mem_map.1 hx with ⟨r, hr, rfl⟩
    exact hall r hr)]
  simp [List.map_map]

theorem countMatches_rows (rows : List (List (Option String))) (e : ManifestEntry) :
    countMatches (rows.map (fun r => astypeStrCell (r.getD 0 none)))
        (rows.map (fun r => astypeStrCell (r.getD 1 none)))
        (rows.map (fun r => (astypeIntCell (r.getD 2 none)).getD 0)) e
      = rows.countP (fun r => (rowTriple r).1 == e.file_name
          && (rowTriple r).2.1 == e.sheet_name
          && (rowTriple r).2.2 == e.table_index) := by
  unfold countMatches
  rw [List.zip_map', List.zip_map', List.countP_map]
  rfl

theorem blocks_agree (master mrest : List String)
    (hm : master = "Nome do Arquivo de Origem" :: "Nome da Planilha de Origem"
        :: "Índice da Tabela na Planilha" :: mrest) :
    ∀ {tables : List DTable} {manifest : List ManifestEntry},
      List.Forall₂ TableAgrees tables manifest →
      (∀ e ∈ manifest, e.file_name ≠ "nan" ∧ e.sheet_name ≠ "nan") →
      List.Forall₂ BlockAgrees
        (tables.map (fun t =>
          (stripCols t).rows.map (alignRow master (stripCols t).columns)))
        manifest := by
  subst hm
  intro tables manifest h hnan
  induction h with
  | nil => exact List.Forall₂.nil
  | cons hab hrest ih =>
    rename_i t e ts ms
    refine List.Forall₂.cons ?_
      (ih (fun x hx => hnan x (List.mem_cons.2 (Or.inr hx))))
    rcases hab with ⟨hlen, hne2, ⟨cs, hcols⟩, hrows⟩
    have hsc : (stripCols t).columns = "Nome do Arquivo de Origem"
        :: "Nome da Planilha de Origem" :: "Índice da Tabela na Planilha"
        :: (cs.map pyStripStr) := by
      show t.columns.map pyStripStr = _
      rw [hcols, List.map_append, strip_trace]
      rfl
    constructor
    · show ((stripCols t).rows.map _).length = e.row_count
      rw [List.length_map]
      exact hlen
    · intro r hr
      rcases List.mem_map.1 hr with ⟨r0, hr0, rfl⟩
      rcases hrows r0 hr0 with ⟨rrest, hr0eq⟩
      rw [hsc, hr0eq]
      exact alignRow_getD _ _ e rrest
        (hnan e (List.mem_cons_self e ms)).1 (hnan e (List.mem_cons_self e ms)).2

theorem validation_of_agrees (tables : List DTable)
    (manifest : List ManifestEntry) (df : ConsDF) (rep : String)
    (hagree : List.Forall₂ TableAgrees tables manifest)
    (h : consolidate_data tables = .ok (df, rep))
    (hdist : manifest.Pairwise TripleNe)
    (hnan : ∀ e ∈ manifest, e.file_name ≠ "nan" ∧ e.sheet_name ≠ "nan") :
    (manifest.map (fun e => e.row_count)).sum = df.rows.length
    ∧ ∃ s, get_validation_summary df manifest = some s
        ∧ s.totals_match = true ∧ s.validation_errors = 0 ∧ s.is_valid = true := by
  cases hman : manifest with
  | nil =>
    rw [hman] at hagree
    have htnil : tables = [] := by cases hagree; rfl
    rw [htnil] at h
    have hrun : consolidate_data ([] : List DTable)
        = .ok ({ columns := [], rows := [] }, "No data found in any tables") := rfl
    rw [hrun] at h
    injection h with h2
    rw [Prod.mk.injEq] at h2
    obtain rfl : df = { columns := [], rows := [] } := h2.1.symm
    exact ⟨rfl, ⟨_, rfl, rfl, rfl, rfl⟩⟩
  | cons e0 ms =>
    rw [hman] at hagree hdist hnan
    cases hagree with
    | cons hab0 hrest0 =>
      rename_i t0 ts
      have hagree2 : List.Forall₂ TableAgrees (t0 :: ts) (e0 :: ms) :=
        List.Forall₂.cons hab0 hrest0
      have hne : ∀ t ∈ t0 :: ts, t.isEmpty = false := by
        intro t ht
        rcases forall₂_mem_left_my hagree2 t ht with ⟨e, _, he⟩
        exact tableAgrees_ne_empty t e he
      rcases discoverTables_cons_head t0 ts (hne t0 (List.mem_cons_self t0 ts))
        with ⟨ldisc, hdisc⟩
      have hcolssub : ∀ x ∈ (stripCols t0).columns, x ∈ allColumnsOf (t0 :: ts) := by
        intro x hx
        refine mem_allColumnsOf _ (0, stripCols t0) ?_ x hx
        rw [hdisc]
        exact List.mem_cons_self _ _
      rcases hab0 with ⟨hlen0, hne0, ⟨cs0, hcols0⟩, hrows0⟩
      have hstrip0 : (stripCols t0).columns = "Nome do Arquivo de Origem"
          :: "Nome da Planilha de Origem" :: "Índice da Tabela na Planilha"
          :: (cs0.map pyStripStr) := by
        show t0.columns.map pyStripStr = _
        rw [hcols0, List.map_append, strip_trace]
        rfl
      have h1 : "Nome do Arquivo de Origem" ∈ allColumnsOf (t0 :: ts) :=
        hcolssub _ (by rw [hstrip0]; simp)
      have h2 : "Nome da Planilha de Origem" ∈ allColumnsOf (t0 :: ts) :=
        hcolssub _ (by rw [hstrip0]; simp)
      have h3 : "Índice da Tabela na Planilha" ∈ allColumnsOf (t0 :: ts) :=
        hcolssub _ (by rw [hstrip0]; simp)
      have hA : (allColumnsOf (t0 :: ts)).Nodup := allColumnsOf_nodup _
      have hfilt : traceability_cols.filter
          (fun c => (allColumnsOf (t0 :: ts)).contains c) = traceability_cols := by
        rw [List.filter_eq_self]
        intro a ha
        rcases List.mem_cons.1 ha with rfl | ha2
        · exact (contains_iff_mem _ _).2 h1
        rcases List.mem_cons.1 ha2 with rfl | ha3
        · exact (contains_iff_mem _ _).2 h2
        rcases List.mem_cons.1 ha3 with rfl | ha4
        · exact (contains_iff_mem _ _).2 h3
        · cases ha4
      have hAne : (allColumnsOf (t0 :: ts)).isEmpty = false := by
        cases hAc : allColumnsOf (t0 :: ts) with
        | nil => rw [hAc] at h1; cases h1
        | cons a l => rfl
      simp only [consolidate_data] at h
      rw [hAne] at h
      rw [if_neg (by simp)] at h
      split at h
      · injection h with h4
        rw [Prod.mk.injEq] at h4
        have hdf1 : df.columns
            = _build_intelligent_column_order (allColumnsOf (t0 :: ts)) := by
          rw [← h4.1]
        have hdf2 : df.rows = ((discoverTables (t0 :: ts)).map
            (fun p => p.2.rows.map (alignRow
              (_build_intelligent_column_order (allColumnsOf (t0 :: ts)))
              p.2.columns))).flatten := by
          rw [← h4.1]
        rw [build_eq _ hA, hfilt] at hdf1
        obtain ⟨mrest, hdc⟩ : ∃ m, df.columns = "Nome do Arquivo de Origem"
            :: "Nome da Planilha de Origem" :: "Índice da Tabela na Planilha" :: m :=
          ⟨_, hdf1⟩
        have hmaster : ∃ m2, _build_intelligent_column_order (allColumnsOf (t0 :: ts))
            = "Nome do Arquivo de Origem" :: "Nome da Planilha de Origem"
              :: "Índice da Tabela na Planilha" :: m2 := by
          rw [build_eq _ hA, hfilt]
          exact ⟨_, rfl⟩
        rcases hmaster with ⟨m2, hm2⟩
        have hbeq : ((discoverTables (t0 :: ts)).map
            (fun p => p.2.rows.map (alignRow
              (_build_intelligent_column_order (allColumnsOf (t0 :: ts)))
              p.2.columns)))
            = (t0 :: ts).map (fun t => (stripCols t).rows.map (alignRow
                (_build_intelligent_column_order (allColumnsOf (t0 :: ts)))
                (stripCols t).columns)) := by
          rw [show (fun (p : Nat × DTable) => p.2.rows.map (alignRow
                (_build_intelligent_column_order (allColumnsOf (t0 :: ts)))
                p.2.columns))
              = (fun t : DTable => t.rows.map (alignRow
                  (_build_intelligent_column_order (allColumnsOf (t0 :: ts)))
                  t.columns)) ∘ (fun p => p.2) from rfl]
          rw [← List.map_map, discoverTables_snd _ hne, List.map_map]
          rfl
        have hblocks : List.Forall₂ BlockAgrees
            ((t0 :: ts).map (fun t => (stripCols t).rows.map (alignRow
              (_build_intelligent_column_order (allColumnsOf (t0 :: ts)))
              (stripCols t).columns)))
            (e0 :: ms) :=
          blocks_agree _ m2 hm2 hagree2 hnan
        rw [hbeq] at hdf2
        have hrowfact : ∀ r ∈ df.rows, ∃ e ∈ e0 :: ms,
            r.getD 0 none = some e.file_name
            ∧ r.getD 1 none = some e.sheet_name
            ∧ r.getD 2 none = some (natToStr e.table_index) := by
          intro r hr
          rw [hdf2] at hr
          rcases List.mem_flatten.1 hr with ⟨b, hb, hrb⟩
          rcases forall₂_mem_left_my hblocks b hb with ⟨e, he, hag⟩
          exact ⟨e, he, hag.2 r hrb⟩
        have hint : ∀ r ∈ df.rows, (astypeIntCell (r.getD 2 none)).isSome = true := by
          intro r hr
          rcases hrowfact r hr with ⟨e, -, -, -, hcell⟩
          rw [hcell]
          simp [astypeIntCell, pyNatOfStr_natToStr]
        obtain ⟨hfv, hsv, hic⟩ := dfColumn_trace df mrest hdc
        have hiv := idxColVals_eq df mrest hdc hint
        have htot : ((e0 :: ms).map (fun e => e.row_count)).sum = df.rows.length := by
          rw [hdf2]
          exact (flatten_length_of_blocks hblocks).symm
        have hcm : ∀ e ∈ e0 :: ms,
            countMatches (df.rows.map (fun r => astypeStrCell (r.getD 0 none)))
              (df.rows.map (fun r => astypeStrCell (r.getD 1 none)))
              (df.rows.map (fun r => (astypeIntCell (r.getD 2 none)).getD 0)) e
            = e.row_count := by
          intro e he
          rw [countMatches_rows, hdf2, countP_flatten]
          exact countMatches_of_blocks e _ _ hblocks he hdist
        have hce : countErrors df
            (some (df.rows.map (fun r => (astypeIntCell (r.getD 2 none)).getD 0)))
            (e0 :: ms) = some 0 := by
          simp only [countErrors, hfv, hsv]
          rw [countErrorsGo_zero _ _ _ _ hcm]
        have hbm : (((e0 :: ms).map (fun e => e.row_count)).sum == df.rows.length)
            = true := beq_iff_eq.2 htot
        refine ⟨htot, ?_⟩
        simp only [get_validation_summary, hiv, hce, hbm]
        exact ⟨_, rfl, rfl, rfl, rfl⟩
      · exact Except.noConfusion h

/-- C2.  The claim quantifies over every error-free run, but the mask of
get_validation_summary only compares the three provenance values, which need
not identify a table: uploading the same workbook twice consolidates without
error and conserves the total row count, yet each per-table mask matches the
rows of both copies, so both counts are doubled, validation_errors = 2 and
is_valid = false even though totals_match = true. -/
theorem C2_counterexample :
    ∃ (files : List UploadedFile) (df : ConsDF) (rep : String)
      (s : ValidationSummary),
      consolidate_data (parse_excel_files files).1 = Except.ok (df, rep)
      ∧ ((parse_excel_files files).2.map (fun e => e.row_count)).sum
          = df.rows.length
      ∧ get_validation_summary df (parse_excel_files files).2 = some s
      ∧ s.totals_match = true
      ∧ s.validation_errors = 2
      ∧ s.is_valid = false :=
  ⟨[⟨"a.xlsx", [("S", [[some "H"], [some "x"]])]⟩,
    ⟨"a.xlsx", [("S", [[some "H"], [some "x"]])]⟩],
   ⟨["Nome do Arquivo de Origem", "Nome da Planilha de Origem",
     "Índice da Tabela na Planilha", "H"],
    [[some "a.xlsx", some "S", some "1", some "x"],
     [some "a.xlsx", some "S", some "1", some "x"]]⟩,
   "Nenhuma anomalia detectada.",
   ⟨false, 2, 2, 0, 2, 2, true⟩,
   by rfl, by rfl, by rfl, rfl, rfl, rfl⟩

/-- C2 (amended): for every run of the pipeline in which consolidation
completes without error, provided the manifest provenance triples
(file name, sheet name, table index) are pairwise distinct and no file or
sheet name is the literal text nan, the sum of row_count over the manifest
equals the number of consolidated rows, and get_validation_summary reports
totals_match = true, zero validation errors and is_valid = true. -/
theorem C2_amended_validation (files : List UploadedFile) (df : ConsDF)
    (rep : String)
    (h : consolidate_data (parse_excel_files files).1 = Except.ok (df, rep))
    (hdist : (parse_excel_files files).2.Pairwise TripleNe)
    (hnan : ∀ e ∈ (parse_excel_files files).2,
        e.file_name ≠ "nan" ∧ e.sheet_name ≠ "nan") :
    ((parse_excel_files files).2.map (fun e => e.row_count)).sum = df.rows.length
    ∧ ∃ s, get_validation_summary df (parse_excel_files files).2 = some s
        ∧ s.totals_match = true ∧ s.validation_errors = 0 ∧ s.is_valid = true :=
  validation_of_agrees _ _ df rep (parse_agrees files) h hdist hnan

theorem C2_amended_validation_witness :
    ((parse_excel_files [⟨"a.xlsx", [("S", [[some "H"], [some "x"]])]⟩]).2.map
        (fun e => e.row_count)).sum
      = (ConsDF.mk ["Nome do Arquivo de Origem", "Nome da Planilha de Origem",
          "Índice da Tabela na Planilha", "H"]
          [[some "a.xlsx", some "S", some "1", some "x"]]).rows.length
    ∧ ∃ s, get_validation_summary
          (ConsDF.mk ["Nome do Arquivo de Origem", "Nome da Planilha de Origem",
            "Índice da Tabela na Planilha", "H"]
            [[some "a.xlsx", some "S", some "1", some "x"]])
          (parse_excel_files [⟨"a.xlsx", [("S", [[some "H"], [some "x"]])]⟩]).2
        = some s
        ∧ s.totals_match = true ∧ s.validation_errors = 0 ∧ s.is_valid = true :=
  C2_amended_validation [⟨"a.xlsx", [("S", [[some "H"], [some "x"]])]⟩]
    (ConsDF.mk ["Nome do Arquivo de Origem", "Nome da Planilha de Origem",
      "Índice da Tabela na Planilha", "H"]
      [[some "a.xlsx", some "S", some "1", some "x"]])
    "Nenhuma anomalia detectada."
    (by rfl)
    (by
      show List.Pairwise TripleNe [ManifestEntry.mk "a.xlsx" "S" 1 1]
      simp)
    (by
      show ∀ e ∈ [ManifestEntry.mk "a.xlsx" "S" 1 1],
        e.file_name ≠ "nan" ∧ e.sheet_name ≠ "nan"
      intro e he
      rw [List.mem_singleton] at he
      subst he
      exact ⟨by decide, by decide⟩)
